import Mathlib

/-!
Pharmacy queue (`patient.c`): a shared bounded queue, a producer and a consumer

A shallow embedding of `src/patient.c`.

* `Patient`, `PharmacySharedMemory` are the two C structs.  A `name` is the C string held in
  the `char name[100]` field (the bytes up to the terminating NUL).
* `patients` is a `List Patient` whose length is the number of array slots.  Every array
  access goes through `readPatient`, `writeId`, `writeName` or `writePatient`, which return `none`
  for an index outside the array (undefined behaviour in C).
* `producer_cs` is the parent's critical section (lines 115-121), `consumer_cs` the child's
  (lines 92-99), `shift_loop` the `for` loop of lines 96-98.  Each one also returns the list of
  array accesses it performed, in program order.
* `MAX_PATIENTS` is the macro of line 14.  The critical sections take the capacity as an
  argument `cap`; the program is the instance `cap = MAX_PATIENTS`.
-/

namespace Pharmacy

/-! ## Data model -/

/-- Line 14: `#define MAX_PATIENTS 10`. -/
def MAX_PATIENTS : Nat := 10

/-- Lines 17-20: `typedef struct { int id; char name[100]; } Patient;` -/
structure Patient where
  id : Int
  name : String
deriving DecidableEq, Repr, Inhabited

/-- Lines 23-26: `typedef struct { Patient patients[MAX_PATIENTS]; int count; }`. -/
structure PharmacySharedMemory where
  patients : List Patient
  count : Int
deriving DecidableEq, Repr

/-- One access to the `patients` array: the index read or written. -/
inductive Access where
  | read (idx : Int)
  | write (idx : Int)
deriving DecidableEq, Repr

/-- The index of an access. -/
def Access.idx : Access → Int
  | .read i => i
  | .write i => i

/-- Whether an access is a read. -/
def Access.isRead : Access → Bool
  | .read _ => true
  | .write _ => false

/-! ## Array accesses -/

/-- Read of `patients[idx]`; `none` when `idx` is outside the array. -/
def readPatient (ps : List Patient) (idx : Int) : Option Patient :=
  if 0 ≤ idx then ps[idx.toNat]? else none

/-- Assignment `patients[idx] = p`; `none` when `idx` is outside the array. -/
def writePatient (ps : List Patient) (idx : Int) (p : Patient) : Option (List Patient) :=
  if 0 ≤ idx ∧ idx.toNat < ps.length then some (ps.set idx.toNat p) else none

/-- Assignment `patients[idx].id = v`; `none` when `idx` is outside the array. -/
def writeId (ps : List Patient) (idx : Int) (v : Int) : Option (List Patient) :=
  match readPatient ps idx with
  | none => none
  | some p => writePatient ps idx { p with id := v }

/-- Assignment of the string `v` to `patients[idx].name`; `none` when `idx` is outside the
array. -/
def writeName (ps : List Patient) (idx : Int) (v : String) : Option (List Patient) :=
  match readPatient ps idx with
  | none => none
  | some p => writePatient ps idx { p with name := v }

/-! ## The label written by `snprintf` -/

/-- The text that the format `"Patient %d"` produces for the `int` argument `i`. -/
def format_label (i : Int) : String := "Patient " ++ toString i

/-- `snprintf(buf, size, ...)` stores at most `size - 1` characters of the formatted text
(and the terminating NUL). -/
def snprintf (size : Nat) (text : String) : String := ⟨text.data.take (size - 1)⟩

/-- Line 119: the name stored by `snprintf(name, 100, "Patient %d", i)`. -/
def stored_label (i : Int) : String := snprintf 100 (format_label i)

/-- The queue item the producer builds on iteration `i` (lines 118-119). -/
def new_patient (i : Int) : Patient := { id := i, name := stored_label i }

/-! ## Consumer critical section (child, lines 92-99) -/

/-- Lines 96-98: `for (int j = 0; j < shm_ptr->count - 1; j++) patients[j] = patients[j + 1];`
started at `j`.  The first argument bounds the number of loop tests; `none` is returned when
it is used up or when an access is outside the array. -/
def shift_loop : Nat → Int → PharmacySharedMemory → List Access →
    Option (PharmacySharedMemory × List Access)
  | 0, _, _, _ => none
  | fuel + 1, j, shm, tr =>
    if j < shm.count - 1 then
      match readPatient shm.patients (j + 1) with
      | none => none
      | some p =>
        match writePatient shm.patients j p with
        | none => none
        | some ps =>
          shift_loop fuel (j + 1) { shm with patients := ps } (tr ++ [.read (j + 1), .write j])
    else some (shm, tr)

/-- What one consumer iteration did inside the mutex: it administered the jab to the patient
printed at line 94, or found no patient (line 105). -/
inductive ConsumerResult where
  | administered (p : Patient)
  | empty
deriving DecidableEq, Repr

/-- Lines 92-99 (and the test failing, line 103): the consumer's critical section. -/
def consumer_cs (shm : PharmacySharedMemory) :
    Option (PharmacySharedMemory × ConsumerResult × List Access) :=
  if shm.count > 0 then
    match readPatient shm.patients 0 with
    | none => none
    | some p0 =>
      match shift_loop shm.count.toNat 0 shm [.read 0] with
      | none => none
      | some (shm1, tr) =>
        some ({ shm1 with count := shm1.count - 1 }, .administered p0, tr)
  else some (shm, .empty, [])

/-! ## Producer critical section (parent, lines 115-121) -/

/-- What one producer iteration did inside the mutex: it added a patient, whose stored name
line 121 prints, or found the pharmacy full (line 127). -/
inductive ProducerResult where
  | added (name : String)
  | full
deriving DecidableEq, Repr

/-- Lines 115-121 (and the test failing, line 125): the producer's critical section on
loop iteration `i`, for a queue of capacity `cap`. -/
def producer_cs (cap : Nat) (i : Int) (shm : PharmacySharedMemory) :
    Option (PharmacySharedMemory × ProducerResult × List Access) :=
  let count := shm.count
  if count < (cap : Int) then
    match writeId shm.patients count i with
    | none => none
    | some ps1 =>
      match writeName ps1 count (stored_label i) with
      | none => none
      | some ps2 =>
        match readPatient ps2 count with
        | none => none
        | some p =>
          some ({ patients := ps2, count := shm.count + 1 }, .added p.name,
            [.write count, .write count, .read count])
  else some (shm, .full, [])

/-! ## Sequences of critical sections -/

/-- One critical section: the producer's on iteration value `i`, or the consumer's. -/
inductive Op where
  | produce (i : Int)
  | consume
deriving DecidableEq, Repr

/-- What a critical section reported. -/
inductive Event where
  | added (p : Patient)
  | full
  | removed (p : Patient)
  | empty
deriving DecidableEq, Repr

/-- Runs one critical section. -/
def exec_op (cap : Nat) (op : Op) (shm : PharmacySharedMemory) :
    Option (PharmacySharedMemory × Event × List Access) :=
  match op with
  | .produce i =>
    match producer_cs cap i shm with
    | none => none
    | some (shm1, .added nm, tr) => some (shm1, .added { id := i, name := nm }, tr)
    | some (shm1, .full, tr) => some (shm1, .full, tr)
  | .consume =>
    match consumer_cs shm with
    | none => none
    | some (shm1, .administered p, tr) => some (shm1, .removed p, tr)
    | some (shm1, .empty, tr) => some (shm1, .empty, tr)

/-- Runs critical sections one at a time, in the given order; returns the final memory, the
events in order and all array accesses in order. -/
def run_ops (cap : Nat) : List Op → PharmacySharedMemory →
    Option (PharmacySharedMemory × List Event × List Access)
  | [], shm => some (shm, [], [])
  | op :: rest, shm =>
    match exec_op cap op shm with
    | none => none
    | some (shm1, ev, tr) =>
      match run_ops cap rest shm1 with
      | none => none
      | some (shm2, evs, tr2) => some (shm2, ev :: evs, tr ++ tr2)

/-- The items added by the successful producer steps, in order. -/
def enqueued : List Event → List Patient
  | [] => []
  | .added p :: evs => p :: enqueued evs
  | _ :: evs => enqueued evs

/-- The items removed by the successful consumer steps, in order. -/
def dequeued : List Event → List Patient
  | [] => []
  | .removed p :: evs => p :: dequeued evs
  | _ :: evs => dequeued evs

/-- The queue contents: `patients[0 .. count-1]`. -/
def contents (shm : PharmacySharedMemory) : List Patient :=
  shm.patients.take shm.count.toNat

/-- Line 64: the shared memory when the actors start: `count = 0`, the array holding whatever
the segment held (`mem0`). -/
def init_shm (mem0 : List Patient) : PharmacySharedMemory := { patients := mem0, count := 0 }


/-- Well-formed shared memory for capacity `cap`: the array has `cap` slots and
`0 ≤ count ≤ cap`. -/
def WellFormed (cap : Nat) (shm : PharmacySharedMemory) : Prop :=
  shm.patients.length = cap ∧ 0 ≤ shm.count ∧ shm.count ≤ (cap : Int)

/-! ## The two processes

After `fork` (line 80) the parent runs the producer loop (lines 113-130) and the child the
consumer loop (lines 90-108).  A state of the system is the shared memory, the two System V
semaphores and, for each process, its loop variable and program point.  One step is one of
the calls `sem_lock(sem_mutex)`, `sem_unlock(sem_mutex)`, `sem_unlock(sem_patient)` or the
code between `sem_lock` and `sem_unlock`.  `semop` with `sem_op = -1` waits until the
semaphore is at least 1 and decrements it; with `sem_op = 1` it increments it; both are
atomic.  The `printf`/`sleep` calls outside the mutex and the `i++` that follow the last
semaphore call of an iteration are local and taken together with that call. -/

/-- The two processes. -/
inductive ActorId where
  | parent
  | child
deriving DecidableEq, Repr

/-- Program points of a loop iteration. -/
inductive Loc where
  -- before `sem_lock(sem_mutex)` (line 114 / 91)
  | lock
  -- after `sem_lock(sem_mutex)`, before the test of `count` (line 115 / 92)
  | critical
  -- before `sem_unlock(sem_mutex)`: line 122 / 100 when `ok`, line 126 / 104 otherwise
  | unlock (ok : Bool)
  -- before `sem_unlock(sem_patient)` (line 123 / 101)
  | signal
  -- the loop has ended (`i < 5` failed): line 131 / 109
  | done
deriving DecidableEq, Repr

/-- One process: its loop variable `i`, its program point, the events of its critical
sections so far, and for each `sem_unlock(sem_mutex)` it has executed the branch it was on
(`true`: line 122 / 100, `false`: line 126 / 104). -/
structure Actor where
  i : Int
  loc : Loc
  log : List Event
  unlocked : List Bool
deriving DecidableEq, Repr

/-- The state of the whole system. -/
structure SystemState where
  shm : PharmacySharedMemory
  sem_mutex : Int
  sem_patient : Int
  parent : Actor
  child : Actor
deriving DecidableEq, Repr

/-- The process with the given id. -/
def SystemState.actor (s : SystemState) : ActorId → Actor
  | .parent => s.parent
  | .child => s.child

/-- Replaces the process with the given id. -/
def SystemState.setActor (s : SystemState) (a : ActorId) (x : Actor) : SystemState :=
  match a with
  | .parent => { s with parent := x }
  | .child => { s with child := x }

/-- A process is between its `sem_lock(sem_mutex)` and its `sem_unlock(sem_mutex)`. -/
def Actor.holds (x : Actor) : Bool :=
  match x.loc with
  | .critical => true
  | .unlock _ => true
  | _ => false

/-- Whether a critical section took the success branch. -/
def Event.ok : Event → Bool
  | .added _ => true
  | .removed _ => true
  | .full => false
  | .empty => false

/-- End of an iteration: `i++` and the loop test `i < 5` (lines 113 / 90). -/
def next_iteration (x : Actor) : Actor :=
  { x with i := x.i + 1, loc := if x.i + 1 < 5 then .lock else .done }

/-- One step of process `a`; `none` when the process cannot move (it waits in `sem_lock`, or
its loop has ended) or when its critical section accesses the array out of bounds. -/
def step (cap : Nat) (a : ActorId) (s : SystemState) : Option SystemState :=
  let x := s.actor a
  match x.loc with
  | .lock =>
    if 1 ≤ s.sem_mutex then
      some ({ s with sem_mutex := s.sem_mutex - 1 }.setActor a { x with loc := .critical })
    else none
  | .critical =>
    let op := match a with
      | .parent => Op.produce x.i
      | .child => Op.consume
    match exec_op cap op s.shm with
    | none => none
    | some (shm1, ev, _) =>
      some ({ s with shm := shm1 }.setActor a
        { x with loc := .unlock ev.ok, log := x.log ++ [ev] })
  | .unlock ok =>
    let x1 := { x with unlocked := x.unlocked ++ [ok] }
    some ({ s with sem_mutex := s.sem_mutex + 1 }.setActor a
      (if ok then { x1 with loc := .signal } else next_iteration x1))
  | .signal =>
    some ({ s with sem_patient := s.sem_patient + 1 }.setActor a (next_iteration x))
  | .done => none

/-- Lines 64, 77, 78 and the loop initialisations: the state right after `fork`. -/
def init_system (cap : Nat) (mem0 : List Patient) : SystemState :=
  { shm := init_shm mem0
    sem_mutex := 1
    sem_patient := (cap : Int)
    parent := { i := 0, loc := .lock, log := [], unlocked := [] }
    child := { i := 0, loc := .lock, log := [], unlocked := [] } }

/-- Runs the processes in the order given by the schedule, one step each time; `none` when a
scheduled process cannot move. -/
def run_schedule (cap : Nat) : List ActorId → SystemState → Option SystemState
  | [], s => some s
  | a :: rest, s =>
    match step cap a s with
    | none => none
    | some s1 => run_schedule cap rest s1

/-- A freshly created segment: every byte zero. -/
def zero_mem (cap : Nat) : List Patient := List.replicate cap { id := 0, name := "" }

/-- Both loops have ended. -/
def SystemState.finished (s : SystemState) : Prop := s.parent.loc = .done ∧ s.child.loc = .done

instance (s : SystemState) : Decidable s.finished := by
  unfold SystemState.finished; infer_instance

/-- The schedule in which the child runs its five iterations before the parent starts. -/
def consumer_first : List ActorId :=
  List.replicate 15 .child ++ List.replicate 20 .parent

/-- The schedule in which each parent iteration is followed by a child iteration. -/
def alternating : List ActorId :=
  (List.replicate 5 (List.replicate 4 ActorId.parent ++ List.replicate 4 .child)).flatten


/-! ## Invariants of the two-process system -/

/-- The suffix of outcomes not yet followed by a release: the outcome of the critical section
just run when the process is about to call `sem_unlock(sem_mutex)`, nothing otherwise. -/
def Loc.pending : Loc → List Bool
  | .unlock ok => [ok]
  | _ => []

/-- Whether the critical section of the current iteration has been run (1) or not (0). -/
def Loc.past_critical : Loc → Int
  | .unlock _ => 1
  | .signal => 1
  | _ => 0

/-- Whether the mutex of the current iteration has been released (1) or not (0). -/
def Loc.past_unlock : Loc → Int
  | .signal => 1
  | _ => 0

/-- Loop invariant of one process: `i` counts the completed iterations, the loop ends exactly
at `i = 5`, one critical section was run per iteration, and each critical section that was
run has been followed by exactly one `sem_unlock(sem_mutex)`, on the branch of its outcome. -/
def LoopInv (x : Actor) : Prop :=
  0 ≤ x.i ∧ (x.loc = .done → x.i = 5) ∧ (x.loc ≠ .done → x.i < 5)
  ∧ (x.log.length : Int) = x.i + x.loc.past_critical
  ∧ (x.unlocked.length : Int) = x.i + x.loc.past_unlock
  ∧ x.log.map Event.ok = x.unlocked ++ x.loc.pending

/-- The number of processes between `sem_lock(sem_mutex)` and `sem_unlock(sem_mutex)`. -/
def SystemState.holders (s : SystemState) : Int :=
  (if s.parent.holds then 1 else 0) + (if s.child.holds then 1 else 0)

/-- Invariant of the mutex semaphore: its value is 1 minus the number of holders, and it is
not negative. -/
def MutexInv (s : SystemState) : Prop :=
  s.sem_mutex = 1 - s.holders ∧ 0 ≤ s.sem_mutex

/-- Invariant of the queue in the run of the program: the memory is well-formed, what the
parent added is what the child removed followed by the queue contents, and the parent's
critical sections so far added the patients `0, 1, ..` in order, and each of the child's
critical sections removed a patient or found the queue empty. -/
def QueueInv (s : SystemState) : Prop :=
  WellFormed MAX_PATIENTS s.shm
  ∧ enqueued s.parent.log = dequeued s.child.log ++ contents s.shm
  ∧ s.parent.log
      = (List.range s.parent.log.length).map (fun (j : Nat) => .added (new_patient (j : Int)))
  ∧ (dequeued s.child.log).length + s.child.log.count .empty = s.child.log.length

/-- An upper bound on the number of steps a process still takes: four for each iteration
not yet completed, less the steps of the current iteration already taken. -/
def Actor.remaining (x : Actor) : Nat :=
  match x.loc with
  | .done => 0
  | .lock => 4 * (5 - x.i).toNat
  | .critical => 4 * (5 - x.i).toNat - 1
  | .unlock _ => 4 * (5 - x.i).toNat - 2
  | .signal => 4 * (5 - x.i).toNat - 3

/-- The critical section process `a` runs when its loop variable is `i`. -/
def critical_op (a : ActorId) (i : Int) : Op :=
  match a with
  | .parent => .produce i
  | .child => .consume

/-! ## Sample inputs -/

/-- A sequence of critical sections: two additions, three removals, one addition. -/
def demo_ops : List Op :=
  [.produce 0, .produce 1, .consume, .consume, .consume, .produce 2]

/-- A full queue of capacity 10: patients 0 to 9 as the producer stores them. -/
def full_shm : PharmacySharedMemory :=
  { patients := (List.range 10).map (fun n => new_patient (n : Int)), count := 10 }

/-- The state `consumer_first` ends in: the child found the queue empty five times, then the
parent added its five patients. -/
def consumer_first_final : SystemState :=
  { shm := { patients := [{ id := 0, name := "Patient 0" }, { id := 1, name := "Patient 1" },
                          { id := 2, name := "Patient 2" }, { id := 3, name := "Patient 3" },
                          { id := 4, name := "Patient 4" }, { id := 0, name := "" },
                          { id := 0, name := "" }, { id := 0, name := "" },
                          { id := 0, name := "" }, { id := 0, name := "" }],
             count := 5 }
    sem_mutex := 1
    sem_patient := 15
    parent := { i := 5, loc := .done,
                log := [.added { id := 0, name := "Patient 0" },
                        .added { id := 1, name := "Patient 1" },
                        .added { id := 2, name := "Patient 2" },
                        .added { id := 3, name := "Patient 3" },
                        .added { id := 4, name := "Patient 4" }],
                unlocked := [true, true, true, true, true] }
    child := { i := 5, loc := .done,
               log := [.empty, .empty, .empty, .empty, .empty],
               unlocked := [false, false, false, false, false] } }

/-- The state `alternating` ends in: every patient was added and then removed. -/
def alternating_final : SystemState :=
  { shm := { patients := [{ id := 4, name := "Patient 4" }, { id := 0, name := "" },
                          { id := 0, name := "" }, { id := 0, name := "" },
                          { id := 0, name := "" }, { id := 0, name := "" },
                          { id := 0, name := "" }, { id := 0, name := "" },
                          { id := 0, name := "" }, { id := 0, name := "" }],
             count := 0 }
    sem_mutex := 1
    sem_patient := 20
    parent := { i := 5, loc := .done,
                log := [.added { id := 0, name := "Patient 0" },
                        .added { id := 1, name := "Patient 1" },
                        .added { id := 2, name := "Patient 2" },
                        .added { id := 3, name := "Patient 3" },
                        .added { id := 4, name := "Patient 4" }],
                unlocked := [true, true, true, true, true] }
    child := { i := 5, loc := .done,
               log := [.removed { id := 0, name := "Patient 0" },
                       .removed { id := 1, name := "Patient 1" },
                       .removed { id := 2, name := "Patient 2" },
                       .removed { id := 3, name := "Patient 3" },
                       .removed { id := 4, name := "Patient 4" }],
               unlocked := [true, true, true, true, true] } }

/-- The first iteration of the parent, alone: `sem_lock`, lines 115-121, `sem_unlock` of the
mutex, `sem_unlock` of the patient semaphore. -/
def first_iteration : List ActorId := List.replicate 4 .parent

/-- The state `first_iteration` ends in. -/
def first_iteration_final : SystemState :=
  { shm := { patients := [{ id := 0, name := "Patient 0" }, { id := 0, name := "" },
                          { id := 0, name := "" }, { id := 0, name := "" },
                          { id := 0, name := "" }, { id := 0, name := "" },
                          { id := 0, name := "" }, { id := 0, name := "" },
                          { id := 0, name := "" }, { id := 0, name := "" }],
             count := 1 }
    sem_mutex := 1
    sem_patient := 11
    parent := { i := 1, loc := .lock, log := [.added { id := 0, name := "Patient 0" }],
                unlocked := [true] }
    child := { i := 0, loc := .lock, log := [], unlocked := [] } }

/-- The state after the parent's first iteration, the child's first iteration (which removes
patient 0) and the parent's second `sem_lock`: the parent is about to run its critical
section with `i = 1` on a queue with `count = 0`. -/
def parent_second_critical : SystemState :=
  { shm := { patients := [{ id := 0, name := "Patient 0" }, { id := 0, name := "" },
                          { id := 0, name := "" }, { id := 0, name := "" },
                          { id := 0, name := "" }, { id := 0, name := "" },
                          { id := 0, name := "" }, { id := 0, name := "" },
                          { id := 0, name := "" }, { id := 0, name := "" }],
             count := 0 }
    sem_mutex := 0
    sem_patient := 12
    parent := { i := 1, loc := .critical, log := [.added { id := 0, name := "Patient 0" }],
                unlocked := [true] }
    child := { i := 1, loc := .lock, log := [.removed { id := 0, name := "Patient 0" }],
               unlocked := [true] } }

/-- The state after the parent's `sem_lock`, critical section and `sem_unlock(sem_mutex)` of
its first iteration followed by the child's `sem_lock`: the parent is about to signal, the
child holds the mutex. -/
def child_holding : SystemState :=
  { shm := { patients := [{ id := 0, name := "Patient 0" }, { id := 0, name := "" },
                          { id := 0, name := "" }, { id := 0, name := "" },
                          { id := 0, name := "" }, { id := 0, name := "" },
                          { id := 0, name := "" }, { id := 0, name := "" },
                          { id := 0, name := "" }, { id := 0, name := "" }],
             count := 1 }
    sem_mutex := 0
    sem_patient := 10
    parent := { i := 0, loc := .signal, log := [.added { id := 0, name := "Patient 0" }],
                unlocked := [true] }
    child := { i := 0, loc := .critical, log := [], unlocked := [] } }

/-- The state after the child's `sem_lock` and critical section on the empty queue: the
child is about to release the mutex on the empty branch (line 104), the parent waits. -/
def child_found_empty : SystemState :=
  { shm := { patients := zero_mem 10, count := 0 }
    sem_mutex := 0
    sem_patient := 10
    parent := { i := 0, loc := .lock, log := [], unlocked := [] }
    child := { i := 0, loc := .unlock false, log := [.empty], unlocked := [] } }
/-! ## Lemmas on the critical sections -/

theorem readPatient_natCast (ps : List Patient) (n : Nat) :
    readPatient ps (n : Int) = ps[n]? := by
  simp [readPatient]

theorem writePatient_natCast (ps : List Patient) (n : Nat) (p : Patient) (h : n < ps.length) :
    writePatient ps (n : Int) p = some (ps.set n p) := by
  simp [writePatient, h]

theorem shift_loop_spec (c : Nat) : ∀ (n jn fuel : Nat) (l : List Patient) (tr : List Access),
    jn + n + 1 = c → c ≤ l.length → n + 1 ≤ fuel →
    ∃ l1 tr1, shift_loop fuel (jn : Int) { patients := l, count := (c : Int) } tr
        = some ({ patients := l1, count := (c : Int) }, tr ++ tr1)
      ∧ l1.length = l.length
      ∧ (∀ k : Nat, l1[k]? = if jn ≤ k ∧ k < jn + n then l[k + 1]? else l[k]?)
      ∧ (∀ a ∈ tr1, 0 ≤ a.idx ∧ a.idx < (c : Int)) := by
  intro n
  induction n with
  | zero =>
    intro jn fuel l tr hc hl hf
    obtain ⟨f, rfl⟩ : ∃ f, fuel = f + 1 := ⟨fuel - 1, by omega⟩
    refine ⟨l, [], ?_, rfl, ?_, ?_⟩
    · have : ¬ ((jn : Int) < (c : Int) - 1) := by omega
      simp [shift_loop, this]
    · intro k
      have : ¬ (jn ≤ k ∧ k < jn + 0) := by omega
      rw [if_neg this]
    · simp
  | succ n ih =>
    intro jn fuel l tr hc hl hf
    obtain ⟨f, rfl⟩ : ∃ f, fuel = f + 1 := ⟨fuel - 1, by omega⟩
    have hlt : (jn : Int) < (c : Int) - 1 := by omega
    have h1 : jn + 1 < l.length := by omega
    have hrd : readPatient l ((jn : Int) + 1) = some l[jn + 1] := by
      have := readPatient_natCast l (jn + 1)
      rw [List.getElem?_eq_getElem h1] at this
      simpa using this
    have hwr : writePatient l (jn : Int) l[jn + 1] = some (l.set jn l[jn + 1]) :=
      writePatient_natCast l jn _ (by omega)
    obtain ⟨l1, tr1, hrun, hlen, hpt, htr⟩ :=
      ih (jn + 1) f (l.set jn l[jn + 1]) (tr ++ [.read ((jn : Int) + 1), .write (jn : Int)])
        (by omega) (by simpa using hl) (by omega)
    refine ⟨l1, [.read ((jn : Int) + 1), .write (jn : Int)] ++ tr1, ?_, ?_, ?_, ?_⟩
    · simp only [shift_loop, hlt, if_true, hrd, hwr]
      have e : ((jn + 1 : Nat) : Int) = (jn : Int) + 1 := by push_cast; rfl
      rw [e] at hrun
      rw [hrun]
      simp
    · simpa using hlen
    · intro k
      rw [hpt k]
      by_cases hk : jn + 1 ≤ k ∧ k < jn + 1 + n
      · have hk2 : jn ≤ k ∧ k < jn + (n + 1) := by omega
        rw [if_pos hk, if_pos hk2, List.getElem?_set]
        have : ¬ jn = k + 1 := by omega
        simp [this]
      · rw [if_neg hk]
        by_cases hk3 : k = jn
        · subst hk3
          have hk2 : k ≤ k ∧ k < k + (n + 1) := by omega
          rw [if_pos hk2, List.getElem?_set]
          simp [List.getElem?_eq_getElem h1]
          omega
        · have hk2 : ¬ (jn ≤ k ∧ k < jn + (n + 1)) := by omega
          rw [if_neg hk2, List.getElem?_set]
          have : ¬ jn = k := by omega
          simp [this]
    · intro a ha
      simp only [List.mem_append, List.mem_cons, List.mem_singleton, List.not_mem_nil,
        or_false] at ha
      rcases ha with (rfl | rfl) | ha
      · simp [Access.idx]; omega
      · simp [Access.idx]; omega
      · exact htr a ha

theorem consumer_cs_empty (shm : PharmacySharedMemory) (h : shm.count ≤ 0) :
    consumer_cs shm = some (shm, .empty, []) := by
  have : ¬ shm.count > 0 := by omega
  simp [consumer_cs, this]

theorem producer_cs_full (cap : Nat) (i : Int) (shm : PharmacySharedMemory)
    (h : (cap : Int) ≤ shm.count) :
    producer_cs cap i shm = some (shm, .full, []) := by
  have : ¬ shm.count < (cap : Int) := by omega
  simp [producer_cs, this]

theorem consumer_cs_nat (l : List Patient) (c : Nat) (hc : 1 ≤ c) (hl : c ≤ l.length) :
    ∃ l1 tr, consumer_cs { patients := l, count := (c : Int) }
        = some ({ patients := l1, count := (c : Int) - 1 },
            .administered (l.get ⟨0, by omega⟩), tr)
      ∧ l1.length = l.length
      ∧ (∀ k : Nat, l1[k]? = if k < c - 1 then l[k + 1]? else l[k]?)
      ∧ (∀ a ∈ tr, 0 ≤ a.idx ∧ a.idx < (c : Int)) := by
  obtain ⟨l1, tr1, hrun, hlen, hpt, htr⟩ :=
    shift_loop_spec c (c - 1) 0 c l [.read 0] (by omega) hl (by omega)
  refine ⟨l1, [.read 0] ++ tr1, ?_, hlen, ?_, ?_⟩
  · have hpos : (c : Int) > 0 := by omega
    have h0 : readPatient l 0 = some (l.get ⟨0, by omega⟩) := by
      have := readPatient_natCast l 0
      rw [List.getElem?_eq_getElem (by omega)] at this
      simpa using this
    simp only [consumer_cs, hpos, if_true, h0, Int.toNat_ofNat]
    have e : ((0 : Nat) : Int) = 0 := rfl
    rw [e] at hrun
    rw [hrun]
  · intro k
    rw [hpt k]
    simp
  · intro a ha
    simp only [List.mem_append, List.mem_singleton] at ha
    rcases ha with rfl | ha
    · simp [Access.idx]; omega
    · exact htr a ha

theorem consumer_cs_ok (cap : Nat) (shm : PharmacySharedMemory) (hwf : WellFormed cap shm)
    (hpos : 0 < shm.count) :
    ∃ p rest shm1 tr, contents shm = p :: rest
      ∧ consumer_cs shm = some (shm1, .administered p, tr)
      ∧ contents shm1 = rest ∧ shm1.count = shm.count - 1 ∧ WellFormed cap shm1
      ∧ (∀ a ∈ tr, 0 ≤ a.idx ∧ a.idx < shm.count) := by
  obtain ⟨l, cnt⟩ := shm
  obtain ⟨hlen, h0, hle⟩ := hwf
  simp only at hlen h0 hle hpos
  obtain ⟨c, rfl⟩ : ∃ c : Nat, cnt = (c : Int) := ⟨cnt.toNat, by omega⟩
  have hc1 : 1 ≤ c := by omega
  have hcl : c ≤ l.length := by omega
  obtain ⟨l1, tr, hrun, hlen1, hpt, htr⟩ := consumer_cs_nat l c hc1 hcl
  refine ⟨l.get ⟨0, by omega⟩, (l.take c).drop 1, _, tr, ?_, hrun, ?_, rfl, ?_, htr⟩
  · simp only [contents, Int.toNat_ofNat]
    apply List.ext_getElem?
    intro k
    cases k with
    | zero => simp [List.getElem?_take]; omega
    | succ k => simp [List.getElem?_take]
  · have e : ((c : Int) - 1).toNat = c - 1 := by omega
    simp only [contents, e]
    apply List.ext_getElem?
    intro k
    simp only [List.getElem?_take, List.getElem?_drop, hpt k]
    by_cases hk : k < c - 1
    · have h3 : 1 + k < c := by omega
      have h4 : k + 1 < c := by omega
      simp [hk, h3, h4, Nat.add_comm]
    · have h3 : ¬ 1 + k < c := by omega
      have h4 : ¬ k + 1 < c := by omega
      simp [hk, h3, h4]
  · refine ⟨by simpa [hlen1] using hlen, ?_, ?_⟩ <;> simp only <;> omega

theorem producer_cs_ok (cap : Nat) (i : Int) (shm : PharmacySharedMemory)
    (hwf : WellFormed cap shm) (hlt : shm.count < (cap : Int)) :
    ∃ shm1, producer_cs cap i shm
        = some (shm1, .added (stored_label i), [.write shm.count, .write shm.count,
            .read shm.count])
      ∧ contents shm1 = contents shm ++ [new_patient i]
      ∧ shm1.count = shm.count + 1 ∧ WellFormed cap shm1 := by
  obtain ⟨l, cnt⟩ := shm
  obtain ⟨hlen, h0, hle⟩ := hwf
  simp only at hlen h0 hle hlt
  obtain ⟨c, rfl⟩ : ∃ c : Nat, cnt = (c : Int) := ⟨cnt.toNat, by omega⟩
  have hcl : c < l.length := by omega
  refine ⟨{ patients := l.set c (new_patient i), count := (c : Int) + 1 }, ?_, ?_, rfl, ?_⟩
  · simp [producer_cs, hlt, writeId, writeName, readPatient_natCast, writePatient_natCast, hcl,
      new_patient]
  · have e : ((c : Int) + 1).toNat = c + 1 := by omega
    simp only [contents, e, Int.toNat_ofNat]
    apply List.ext_getElem?
    intro k
    have htl : (l.take c).length = c := by simp [List.length_take]; omega
    by_cases hk : k < c
    · rw [List.getElem?_append_left (by omega)]
      have h1 : ¬ c = k := by omega
      have h2 : k < c + 1 := by omega
      simp [List.getElem?_take, List.getElem?_set, hk, h1, h2]
    · rw [List.getElem?_append_right (by omega), htl]
      by_cases hk2 : k = c
      · subst hk2
        simp [List.getElem?_take, List.getElem?_set, hcl]
      · have h1 : ¬ k < c + 1 := by omega
        have h2 : k - c = (k - c - 1) + 1 := by omega
        rw [h2]
        simp [List.getElem?_take, h1]
  · refine ⟨by simpa using hlen, ?_, ?_⟩ <;> simp only <;> omega


/-! ## Lemmas on single critical sections, as events -/

theorem contents_length (cap : Nat) (shm : PharmacySharedMemory) (hwf : WellFormed cap shm) :
    ((contents shm).length : Int) = shm.count := by
  obtain ⟨hlen, h0, hle⟩ := hwf
  simp only [contents, List.length_take]
  omega

theorem wellFormed_init (mem0 : List Patient) :
    WellFormed mem0.length (init_shm mem0) := by
  simp [WellFormed, init_shm]

theorem contents_init (mem0 : List Patient) : contents (init_shm mem0) = [] := by
  simp [contents, init_shm]

theorem exec_produce_full (cap : Nat) (i : Int) (shm : PharmacySharedMemory)
    (h : (cap : Int) ≤ shm.count) :
    exec_op cap (.produce i) shm = some (shm, .full, []) := by
  simp [exec_op, producer_cs_full cap i shm h]

theorem exec_consume_empty (cap : Nat) (shm : PharmacySharedMemory) (h : shm.count ≤ 0) :
    exec_op cap .consume shm = some (shm, .empty, []) := by
  simp [exec_op, consumer_cs_empty shm h]

theorem exec_produce_ok (cap : Nat) (i : Int) (shm : PharmacySharedMemory)
    (hwf : WellFormed cap shm) (hlt : shm.count < (cap : Int)) :
    ∃ shm1 tr, exec_op cap (.produce i) shm = some (shm1, .added (new_patient i), tr)
      ∧ contents shm1 = contents shm ++ [new_patient i]
      ∧ shm1.count = shm.count + 1 ∧ WellFormed cap shm1
      ∧ (∀ a ∈ tr, 0 ≤ a.idx ∧ a.idx < (cap : Int)) := by
  obtain ⟨shm1, hrun, hc, hcnt, hwf1⟩ := producer_cs_ok cap i shm hwf hlt
  refine ⟨shm1, [.write shm.count, .write shm.count, .read shm.count], ?_, hc, hcnt, hwf1, ?_⟩
  · simp [exec_op, hrun, new_patient]
  · intro a ha
    have h0 := hwf.2.1
    simp only [List.mem_cons, List.mem_singleton, List.not_mem_nil, or_false] at ha
    rcases ha with rfl | rfl | rfl <;> simp only [Access.idx] <;> omega

theorem exec_consume_ok (cap : Nat) (shm : PharmacySharedMemory) (hwf : WellFormed cap shm)
    (hpos : 0 < shm.count) :
    ∃ p rest shm1 tr, contents shm = p :: rest
      ∧ exec_op cap .consume shm = some (shm1, .removed p, tr)
      ∧ contents shm1 = rest ∧ shm1.count = shm.count - 1 ∧ WellFormed cap shm1
      ∧ (∀ a ∈ tr, 0 ≤ a.idx ∧ a.idx < (cap : Int)) := by
  obtain ⟨p, rest, shm1, tr, hc, hrun, hc1, hcnt, hwf1, htr⟩ := consumer_cs_ok cap shm hwf hpos
  refine ⟨p, rest, shm1, tr, hc, ?_, hc1, hcnt, hwf1, ?_⟩
  · simp [exec_op, hrun]
  · intro a ha
    have := htr a ha
    have := hwf.2.2
    omega

/-- What one critical section does to a well-formed memory: it returns, the memory stays
well-formed, all accesses are inside the array, and the queue contents change by the item
added or removed. -/
theorem exec_op_spec (cap : Nat) (op : Op) (shm : PharmacySharedMemory)
    (hwf : WellFormed cap shm) :
    ∃ shm1 ev tr, exec_op cap op shm = some (shm1, ev, tr) ∧ WellFormed cap shm1
      ∧ (∀ a ∈ tr, 0 ≤ a.idx ∧ a.idx < (cap : Int))
      ∧ contents shm ++ enqueued [ev] = dequeued [ev] ++ contents shm1
      ∧ (∀ p ∈ enqueued [ev], ∃ i, op = .produce i ∧ p = new_patient i) := by
  cases op with
  | produce i =>
    by_cases hlt : shm.count < (cap : Int)
    · obtain ⟨shm1, tr, hrun, hc, _, hwf1, htr⟩ := exec_produce_ok cap i shm hwf hlt
      exact ⟨shm1, _, tr, hrun, hwf1, htr, by simp [enqueued, dequeued, hc],
        by simp [enqueued]⟩
    · exact ⟨shm, _, [], exec_produce_full cap i shm (by omega), hwf, by simp,
        by simp [enqueued, dequeued], by simp [enqueued]⟩
  | consume =>
    by_cases hpos : 0 < shm.count
    · obtain ⟨p, rest, shm1, tr, hc, hrun, hc1, _, hwf1, htr⟩ :=
        exec_consume_ok cap shm hwf hpos
      exact ⟨shm1, _, tr, hrun, hwf1, htr, by simp [enqueued, dequeued, hc, hc1],
        by simp [enqueued]⟩
    · exact ⟨shm, _, [], exec_consume_empty cap shm (by omega), hwf, by simp,
        by simp [enqueued, dequeued], by simp [enqueued]⟩

/-! ## Lemmas on sequences of critical sections -/

theorem enqueued_cons (ev : Event) (evs : List Event) :
    enqueued (ev :: evs) = enqueued [ev] ++ enqueued evs := by
  cases ev <;> simp [enqueued]

theorem dequeued_cons (ev : Event) (evs : List Event) :
    dequeued (ev :: evs) = dequeued [ev] ++ dequeued evs := by
  cases ev <;> simp [dequeued]

theorem enqueued_append (e1 e2 : List Event) :
    enqueued (e1 ++ e2) = enqueued e1 ++ enqueued e2 := by
  induction e1 with
  | nil => simp [enqueued]
  | cons ev evs ih =>
    rw [List.cons_append, enqueued_cons, ih, enqueued_cons ev evs, List.append_assoc]

theorem dequeued_append (e1 e2 : List Event) :
    dequeued (e1 ++ e2) = dequeued e1 ++ dequeued e2 := by
  induction e1 with
  | nil => simp [dequeued]
  | cons ev evs ih =>
    rw [List.cons_append, dequeued_cons, ih, dequeued_cons ev evs, List.append_assoc]

/-- Every sequence of critical sections run from a well-formed memory returns; the memory
stays well-formed, every access is inside the array, and what was in the queue followed by
what was added is what was removed followed by what is in the queue. -/
theorem run_ops_spec (cap : Nat) (ops : List Op) : ∀ (shm : PharmacySharedMemory),
    WellFormed cap shm →
    ∃ shm1 evs tr, run_ops cap ops shm = some (shm1, evs, tr) ∧ WellFormed cap shm1
      ∧ (∀ a ∈ tr, 0 ≤ a.idx ∧ a.idx < (cap : Int))
      ∧ contents shm ++ enqueued evs = dequeued evs ++ contents shm1
      ∧ (∀ p ∈ enqueued evs, ∃ i, Op.produce i ∈ ops ∧ p = new_patient i) := by
  induction ops with
  | nil =>
    intro shm hwf
    exact ⟨shm, [], [], rfl, hwf, by simp, by simp [enqueued, dequeued], by simp [enqueued]⟩
  | cons op rest ih =>
    intro shm hwf
    obtain ⟨shm1, ev, tr, hrun, hwf1, htr, hq, hp⟩ := exec_op_spec cap op shm hwf
    obtain ⟨shm2, evs, tr2, hrun2, hwf2, htr2, hq2, hp2⟩ := ih shm1 hwf1
    refine ⟨shm2, ev :: evs, tr ++ tr2, ?_, hwf2, ?_, ?_, ?_⟩
    · simp [run_ops, hrun, hrun2]
    · intro a ha
      rcases List.mem_append.mp ha with h | h
      · exact htr a h
      · exact htr2 a h
    · rw [enqueued_cons, dequeued_cons, ← List.append_assoc, hq, List.append_assoc, hq2,
        List.append_assoc]
    · intro p hmem
      rw [enqueued_cons] at hmem
      rcases List.mem_append.mp hmem with h | h
      · obtain ⟨i, hi, hpi⟩ := hp p h
        exact ⟨i, by simp [hi], hpi⟩
      · obtain ⟨i, hi, hpi⟩ := hp2 p h
        exact ⟨i, List.mem_cons_of_mem _ hi, hpi⟩

theorem run_ops_append (cap : Nat) (ops1 ops2 : List Op) : ∀ (shm : PharmacySharedMemory),
    run_ops cap (ops1 ++ ops2) shm =
      match run_ops cap ops1 shm with
      | none => none
      | some (shm1, e1, t1) =>
        match run_ops cap ops2 shm1 with
        | none => none
        | some (shm2, e2, t2) => some (shm2, e1 ++ e2, t1 ++ t2) := by
  induction ops1 with
  | nil =>
    intro shm
    simp only [List.nil_append, run_ops]
    rcases run_ops cap ops2 shm with _ | ⟨s, e, t⟩ <;> simp
  | cons op rest ih =>
    intro shm
    simp only [List.cons_append, run_ops]
    cases h1 : exec_op cap op shm with
    | none => rfl
    | some r =>
      obtain ⟨s, e, t⟩ := r
      simp only
      rw [show rest.append ops2 = rest ++ ops2 from rfl, ih s]
      cases h2 : run_ops cap rest s with
      | none => rfl
      | some r2 =>
        obtain ⟨s1, e1, t1⟩ := r2
        simp only
        cases h3 : run_ops cap ops2 s1 with
        | none => rfl
        | some r3 => simp

/-- Producer steps while there is room all succeed and append their items. -/
theorem run_produce_all (cap : Nat) (ids : List Int) : ∀ (shm : PharmacySharedMemory),
    WellFormed cap shm → shm.count + (ids.length : Int) ≤ (cap : Int) →
    ∃ shm1 tr, run_ops cap (ids.map .produce) shm
        = some (shm1, ids.map (fun i => .added (new_patient i)), tr)
      ∧ contents shm1 = contents shm ++ ids.map new_patient ∧ WellFormed cap shm1 := by
  induction ids with
  | nil =>
    intro shm hwf _
    exact ⟨shm, [], rfl, by simp, hwf⟩
  | cons i rest ih =>
    intro shm hwf hroom
    simp only [List.length_cons, Nat.cast_add, Nat.cast_one] at hroom
    obtain ⟨shm1, tr, hrun, hc, hcnt, hwf1, _⟩ := exec_produce_ok cap i shm hwf (by omega)
    obtain ⟨shm2, tr2, hrun2, hc2, hwf2⟩ := ih shm1 hwf1 (by omega)
    refine ⟨shm2, tr ++ tr2, ?_, ?_, hwf2⟩
    · simp [run_ops, hrun, hrun2]
    · simp [hc2, hc]

/-- As many consumer steps as there are items all succeed and remove the items in order. -/
theorem run_consume_all (cap : Nat) (q : List Patient) : ∀ (shm : PharmacySharedMemory),
    WellFormed cap shm → contents shm = q →
    ∃ shm1 tr, run_ops cap (List.replicate q.length .consume) shm
        = some (shm1, q.map (fun p => .removed p), tr)
      ∧ shm1.count = 0 ∧ WellFormed cap shm1 := by
  induction q with
  | nil =>
    intro shm hwf hq
    have := contents_length cap shm hwf
    rw [hq] at this
    exact ⟨shm, [], rfl, by simpa using this.symm, hwf⟩
  | cons p rest ih =>
    intro shm hwf hq
    have hlen := contents_length cap shm hwf
    rw [hq] at hlen
    simp only [List.length_cons, Nat.cast_add, Nat.cast_one] at hlen
    obtain ⟨p1, rest1, shm1, tr, hc, hrun, hc1, _, hwf1, _⟩ :=
      exec_consume_ok cap shm hwf (by omega)
    rw [hq] at hc
    obtain ⟨rfl, rfl⟩ := List.cons.inj hc
    obtain ⟨shm2, tr2, hrun2, hcnt2, hwf2⟩ := ih shm1 hwf1 hc1
    refine ⟨shm2, tr ++ tr2, ?_, hcnt2, hwf2⟩
    simp [List.replicate_succ, run_ops, hrun, hrun2]

/-! ## Lemmas on the two-process system -/

theorem actor_setActor (t : SystemState) (a : ActorId) (x : Actor) :
    (t.setActor a x).actor a = x := by
  cases a <;> rfl

theorem actor_setActor_ne (t : SystemState) (a b : ActorId) (x : Actor) (h : b ≠ a) :
    (t.setActor a x).actor b = t.actor b := by
  cases a <;> cases b <;> first | rfl | exact absurd rfl h

theorem loopInv_init : LoopInv { i := 0, loc := .lock, log := [], unlocked := [] } := by
  simp [LoopInv, Loc.past_critical, Loc.past_unlock, Loc.pending]

theorem loopInv_next (x : Actor) (h0 : 0 ≤ x.i) (h5 : x.i < 5)
    (hlog : (x.log.length : Int) = x.i + 1) (hun : (x.unlocked.length : Int) = x.i + 1)
    (hok : x.log.map Event.ok = x.unlocked) :
    LoopInv (next_iteration x) := by
  unfold LoopInv next_iteration
  by_cases h : x.i + 1 < 5
  · simp [h, Loc.past_critical, Loc.past_unlock, Loc.pending, hlog, hun, hok]
    omega
  · simp [h, Loc.past_critical, Loc.past_unlock, Loc.pending, hlog, hun, hok]
    omega

/-- One step of a process keeps its loop invariant. -/
theorem step_actor_loopInv (cap : Nat) (a : ActorId) (s s1 : SystemState)
    (hstep : step cap a s = some s1) (hinv : LoopInv (s.actor a)) :
    LoopInv (s1.actor a) := by
  obtain ⟨h0, hd, hnd, hlog, hun, hok⟩ := hinv
  unfold step at hstep
  cases hloc : (s.actor a).loc with
  | lock =>
    simp only [hloc] at hstep
    split at hstep
    · cases hstep
      rw [hloc] at hnd hlog hun hok
      simp only [Loc.past_critical, Loc.past_unlock, Loc.pending, List.append_nil,
        add_zero] at hlog hun hok
      rw [actor_setActor]
      simp [LoopInv, Loc.past_critical, Loc.past_unlock, Loc.pending, h0, hnd, hlog, hun, hok]
    · cases hstep
  | critical =>
    simp only [hloc] at hstep
    split at hstep
    · cases hstep
    · cases hstep
      rw [hloc] at hnd hlog hun hok
      simp only [Loc.past_critical, Loc.past_unlock, Loc.pending, List.append_nil,
        add_zero] at hlog hun hok
      rw [actor_setActor]
      simp [LoopInv, Loc.past_critical, Loc.past_unlock, Loc.pending, h0, hnd, hlog, hun, hok]
  | unlock ok =>
    simp only [hloc] at hstep
    cases hstep
    rw [hloc] at hnd hlog hun hok
    simp only [Loc.past_critical, Loc.past_unlock, Loc.pending, add_zero] at hlog hun hok
    have h5 := hnd (by simp)
    rw [actor_setActor]
    cases ok
    · exact loopInv_next { (s.actor a) with unlocked := (s.actor a).unlocked ++ [false] }
        h0 h5 hlog (by simp [hun]) hok
    · simp [LoopInv, Loc.past_critical, Loc.past_unlock, Loc.pending, h0, h5, hlog, hun, hok]
  | signal =>
    simp only [hloc] at hstep
    cases hstep
    rw [hloc] at hnd hlog hun hok
    simp only [Loc.past_critical, Loc.past_unlock, Loc.pending, List.append_nil] at hlog hun hok
    rw [actor_setActor]
    exact loopInv_next (s.actor a) h0 (hnd (by simp)) hlog hun hok
  | done =>
    simp only [hloc] at hstep
    cases hstep

theorem setActor_shm (t : SystemState) (a : ActorId) (x : Actor) :
    (t.setActor a x).shm = t.shm := by
  cases a <;> rfl

theorem setActor_sem_mutex (t : SystemState) (a : ActorId) (x : Actor) :
    (t.setActor a x).sem_mutex = t.sem_mutex := by
  cases a <;> rfl

theorem setActor_sem_patient (t : SystemState) (a : ActorId) (x : Actor) :
    (t.setActor a x).sem_patient = t.sem_patient := by
  cases a <;> rfl

/-- The five ways a step can be taken, with the state each one leads to. -/
theorem step_cases (cap : Nat) (a : ActorId) (s s1 : SystemState)
    (hstep : step cap a s = some s1) :
    ((s.actor a).loc = .lock ∧ 1 ≤ s.sem_mutex
      ∧ s1 = { s with sem_mutex := s.sem_mutex - 1 }.setActor a
          { (s.actor a) with loc := .critical })
    ∨ ((s.actor a).loc = .critical ∧ ∃ shm1 ev tr,
        exec_op cap (match a with
          | .parent => Op.produce (s.actor a).i
          | .child => Op.consume) s.shm = some (shm1, ev, tr)
        ∧ s1 = { s with shm := shm1 }.setActor a
            { (s.actor a) with loc := .unlock ev.ok, log := (s.actor a).log ++ [ev] })
    ∨ ((s.actor a).loc = .unlock true
      ∧ s1 = { s with sem_mutex := s.sem_mutex + 1 }.setActor a
          { (s.actor a) with unlocked := (s.actor a).unlocked ++ [true], loc := .signal })
    ∨ ((s.actor a).loc = .unlock false
      ∧ s1 = { s with sem_mutex := s.sem_mutex + 1 }.setActor a
          (next_iteration { (s.actor a) with unlocked := (s.actor a).unlocked ++ [false] }))
    ∨ ((s.actor a).loc = .signal
      ∧ s1 = { s with sem_patient := s.sem_patient + 1 }.setActor a
          (next_iteration (s.actor a))) := by
  unfold step at hstep
  cases hloc : (s.actor a).loc with
  | lock =>
    simp only [hloc] at hstep
    split at hstep
    · cases hstep
      exact Or.inl ⟨rfl, by assumption, rfl⟩
    · cases hstep
  | critical =>
    simp only [hloc] at hstep
    split at hstep
    · cases hstep
    · cases hstep
      rename_i shm1 ev tr heq
      exact Or.inr (Or.inl ⟨rfl, shm1, ev, tr, heq, rfl⟩)
  | unlock ok =>
    simp only [hloc] at hstep
    cases hstep
    cases ok
    · exact Or.inr (Or.inr (Or.inr (Or.inl ⟨rfl, rfl⟩)))
    · exact Or.inr (Or.inr (Or.inl ⟨rfl, rfl⟩))
  | signal =>
    simp only [hloc] at hstep
    cases hstep
    exact Or.inr (Or.inr (Or.inr (Or.inr ⟨rfl, rfl⟩)))
  | done =>
    simp only [hloc] at hstep
    cases hstep

/-- A step of one process leaves the other process as it was. -/
theorem step_other (cap : Nat) (a b : ActorId) (s s1 : SystemState)
    (hstep : step cap a s = some s1) (hne : b ≠ a) : s1.actor b = s.actor b := by
  rcases step_cases cap a s s1 hstep with ⟨_, _, rfl⟩ | ⟨_, _, _, _, _, rfl⟩ | ⟨_, rfl⟩
    | ⟨_, rfl⟩ | ⟨_, rfl⟩ <;>
  · rw [actor_setActor_ne _ _ _ _ hne]
    cases b <;> rfl

theorem holders_eq (s : SystemState) :
    s.holders = (if (s.actor .parent).holds then 1 else 0)
      + (if (s.actor .child).holds then 1 else 0) := rfl

theorem holders_step (a : ActorId) (s s1 : SystemState)
    (hother : ∀ b, b ≠ a → s1.actor b = s.actor b) :
    s1.holders - (if (s1.actor a).holds then 1 else 0)
      = s.holders - (if (s.actor a).holds then 1 else 0) := by
  rw [holders_eq, holders_eq]
  cases a
  · rw [hother .child (by decide)]; omega
  · rw [hother .parent (by decide)]; omega

theorem next_iteration_holds (x : Actor) : (next_iteration x).holds = false := by
  unfold next_iteration Actor.holds
  by_cases h : x.i + 1 < 5 <;> simp [h]

/-- One step keeps the invariant of the mutex semaphore. -/
theorem step_mutexInv (cap : Nat) (a : ActorId) (s s1 : SystemState)
    (hstep : step cap a s = some s1) (hinv : MutexInv s) : MutexInv s1 := by
  obtain ⟨hval, hnn⟩ := hinv
  have hother := fun b hb => step_other cap a b s s1 hstep hb
  have hh := holders_step a s s1 hother
  rcases step_cases cap a s s1 hstep with ⟨hloc, h1, rfl⟩ | ⟨hloc, _, _, _, _, rfl⟩
    | ⟨hloc, rfl⟩ | ⟨hloc, rfl⟩ | ⟨hloc, rfl⟩
  · have hb : (s.actor a).holds = false := by simp [Actor.holds, hloc]
    rw [actor_setActor, hb] at hh
    simp only [Actor.holds] at hh
    simp at hh
    simp only [MutexInv, setActor_sem_mutex]
    constructor <;> omega
  · have hb : (s.actor a).holds = true := by simp [Actor.holds, hloc]
    rw [actor_setActor, hb] at hh
    simp only [Actor.holds] at hh
    simp at hh
    simp only [MutexInv, setActor_sem_mutex]
    constructor <;> omega
  · have hb : (s.actor a).holds = true := by simp [Actor.holds, hloc]
    rw [actor_setActor, hb] at hh
    simp only [Actor.holds] at hh
    simp at hh
    simp only [MutexInv, setActor_sem_mutex]
    constructor <;> omega
  · have hb : (s.actor a).holds = true := by simp [Actor.holds, hloc]
    rw [actor_setActor, hb, next_iteration_holds] at hh
    simp at hh
    simp only [MutexInv, setActor_sem_mutex]
    constructor <;> omega
  · have hb : (s.actor a).holds = false := by simp [Actor.holds, hloc]
    rw [actor_setActor, hb, next_iteration_holds] at hh
    simp at hh
    simp only [MutexInv, setActor_sem_mutex]
    constructor <;> omega

/-- A process that does not hold the mutex neither writes nor reads the shared memory: its
step leaves the memory as it is and is the same whatever the memory holds. -/
theorem step_no_access (cap : Nat) (a : ActorId) (s s1 : SystemState)
    (hstep : step cap a s = some s1) (hfree : (s.actor a).holds = false) :
    s1.shm = s.shm
    ∧ ∀ shm2, step cap a { s with shm := shm2 } = some { s1 with shm := shm2 } := by
  have hact : ∀ shm2, ({ s with shm := shm2 } : SystemState).actor a = s.actor a := by
    intro shm2; cases a <;> rfl
  rcases step_cases cap a s s1 hstep with ⟨hloc, h1, rfl⟩ | ⟨hloc, _, _, _, _, rfl⟩
    | ⟨hloc, rfl⟩ | ⟨hloc, rfl⟩ | ⟨hloc, rfl⟩
  · refine ⟨by rw [setActor_shm], fun shm2 => ?_⟩
    unfold step
    simp only [hact, hloc, h1, if_true]
    cases a <;> rfl
  · simp [Actor.holds, hloc] at hfree
  · simp [Actor.holds, hloc] at hfree
  · simp [Actor.holds, hloc] at hfree
  · refine ⟨by rw [setActor_shm], fun shm2 => ?_⟩
    unfold step
    simp only [hact, hloc]
    cases a <;> rfl

theorem enqueued_map_added (f : Nat → Patient) (l : List Nat) :
    enqueued (l.map (fun j => .added (f j))) = l.map f := by
  induction l with
  | nil => rfl
  | cons x xs ih => simp [enqueued, ih]

/-- One step of the program keeps the invariant of the queue. -/
theorem step_queueInv (a : ActorId) (s s1 : SystemState)
    (hstep : step MAX_PATIENTS a s = some s1) (hloop : LoopInv s.parent)
    (hinv : QueueInv s) : QueueInv s1 := by
  obtain ⟨hwf, hfifo, hlog, hch⟩ := hinv
  have hcount := contents_length MAX_PATIENTS s.shm hwf
  have hlen : (enqueued s.parent.log).length = s.parent.log.length := by
    rw [hlog, enqueued_map_added]; simp
  have hle : s.shm.count ≤ (s.parent.log.length : Int) := by
    have := congrArg List.length hfifo
    rw [List.length_append, hlen] at this
    omega
  rcases step_cases MAX_PATIENTS a s s1 hstep with ⟨hloc, h1, rfl⟩
    | ⟨hloc, shm1, ev, tr, hexec, rfl⟩ | ⟨hloc, rfl⟩ | ⟨hloc, rfl⟩ | ⟨hloc, rfl⟩
  · cases a <;> exact ⟨hwf, hfifo, hlog, hch⟩
  · cases a
    · -- the parent's critical section
      obtain ⟨_, _, hnd, hll, _, _⟩ := hloop
      simp only [SystemState.actor] at hloc hexec
      rw [hloc] at hnd hll
      have h5 := hnd (by simp)
      simp only [Loc.past_critical, add_zero] at hll
      have hroom : s.shm.count < (MAX_PATIENTS : Int) := by
        simp only [MAX_PATIENTS]; push_cast; omega
      obtain ⟨shm2, tr2, hrun, hc, _, hwf2, _⟩ :=
        exec_produce_ok MAX_PATIENTS s.parent.i s.shm hwf hroom
      rw [hrun] at hexec
      obtain ⟨rfl, rfl, rfl⟩ : shm2 = shm1 ∧ Event.added (new_patient s.parent.i) = ev
          ∧ tr2 = tr := by simpa using hexec
      refine ⟨hwf2, ?_, ?_, hch⟩
      · show enqueued (s.parent.log ++ [Event.added (new_patient s.parent.i)])
          = dequeued s.child.log ++ contents shm2
        rw [enqueued_append, hfifo, hc, List.append_assoc]
        rfl
      · show s.parent.log ++ [Event.added (new_patient s.parent.i)]
          = (List.range (s.parent.log ++ [Event.added (new_patient s.parent.i)]).length).map
              (fun (j : Nat) => Event.added (new_patient (j : Int)))
        rw [List.length_append, List.length_singleton, List.range_succ, List.map_append,
          ← hlog, List.map_singleton, hll]
    · -- the child's critical section
      simp only [SystemState.actor] at hloc hexec
      by_cases hpos : 0 < s.shm.count
      · obtain ⟨p, rest, shm2, tr2, hc, hrun, hc1, _, hwf2, _⟩ :=
          exec_consume_ok MAX_PATIENTS s.shm hwf hpos
        rw [hrun] at hexec
        obtain ⟨rfl, rfl, rfl⟩ : shm2 = shm1 ∧ Event.removed p = ev ∧ tr2 = tr := by
          simpa using hexec
        refine ⟨hwf2, ?_, hlog, ?_⟩
        · show enqueued s.parent.log
            = dequeued (s.child.log ++ [Event.removed p]) ++ contents shm2
          rw [dequeued_append, hfifo, hc, hc1, List.append_assoc]
          rfl
        · show (dequeued (s.child.log ++ [Event.removed p])).length
              + (s.child.log ++ [Event.removed p]).count .empty
            = (s.child.log ++ [Event.removed p]).length
          rw [dequeued_append, List.count_append, List.length_append, List.length_append, ← hch]
          simp [dequeued, List.count_cons]
          omega
      · rw [exec_consume_empty MAX_PATIENTS s.shm (by omega)] at hexec
        obtain ⟨rfl, rfl, rfl⟩ : s.shm = shm1 ∧ Event.empty = ev ∧ [] = tr := by
          simpa using hexec
        refine ⟨hwf, ?_, hlog, ?_⟩
        · show enqueued s.parent.log
            = dequeued (s.child.log ++ [Event.empty]) ++ contents s.shm
          rw [dequeued_append, hfifo]
          simp [dequeued]
        · show (dequeued (s.child.log ++ [Event.empty])).length
              + (s.child.log ++ [Event.empty]).count .empty
            = (s.child.log ++ [Event.empty]).length
          rw [dequeued_append, List.count_append, List.length_append, List.length_append, ← hch]
          simp [dequeued, List.count_cons]
          omega
  · cases a <;> exact ⟨hwf, hfifo, hlog, hch⟩
  · cases a <;> exact ⟨hwf, hfifo, hlog, hch⟩
  · cases a <;> exact ⟨hwf, hfifo, hlog, hch⟩

/-- The invariants of a state: the loop invariant of each process, the invariant of the
mutex, and (for the capacity of the program) the invariant of the queue. -/
theorem run_schedule_inv (cap : Nat) (sched : List ActorId) : ∀ (s s1 : SystemState),
    run_schedule cap sched s = some s1 →
    LoopInv s.parent → LoopInv s.child → MutexInv s →
    LoopInv s1.parent ∧ LoopInv s1.child ∧ MutexInv s1
      ∧ (cap = MAX_PATIENTS → QueueInv s → QueueInv s1) := by
  induction sched with
  | nil =>
    intro s s1 hrun hp hc hm
    cases hrun
    exact ⟨hp, hc, hm, fun _ h => h⟩
  | cons a rest ih =>
    intro s s1 hrun hp hc hm
    simp only [run_schedule] at hrun
    cases hstep : step cap a s with
    | none => rw [hstep] at hrun; cases hrun
    | some s2 =>
      rw [hstep] at hrun
      have hm2 := step_mutexInv cap a s s2 hstep hm
      have hp2 : LoopInv s2.parent := by
        cases a
        · exact step_actor_loopInv cap .parent s s2 hstep hp
        · have := step_other cap .child .parent s s2 hstep (by decide)
          simp only [SystemState.actor] at this
          rw [this]; exact hp
      have hc2 : LoopInv s2.child := by
        cases a
        · have := step_other cap .parent .child s s2 hstep (by decide)
          simp only [SystemState.actor] at this
          rw [this]; exact hc
        · exact step_actor_loopInv cap .child s s2 hstep hc
      obtain ⟨hp1, hc1, hm1, hq1⟩ := ih s2 s1 hrun hp2 hc2 hm2
      refine ⟨hp1, hc1, hm1, fun hcap hq => hq1 hcap ?_⟩
      subst hcap
      exact step_queueInv a s s2 hstep hp hq

theorem mutexInv_init (cap : Nat) (mem0 : List Patient) :
    MutexInv (init_system cap mem0) := by
  simp [MutexInv, init_system, SystemState.holders, Actor.holds]

theorem queueInv_init (mem0 : List Patient) (hmem : mem0.length = MAX_PATIENTS) :
    QueueInv (init_system MAX_PATIENTS mem0) := by
  refine ⟨hmem ▸ wellFormed_init mem0, ?_, ?_, ?_⟩
  · simp [init_system, enqueued, dequeued, contents_init]
  · simp [init_system]
  · simp [init_system, dequeued]

/-- Every state the system reaches from its start satisfies the invariants. -/
theorem reachable_inv (cap : Nat) (mem0 : List Patient) (sched : List ActorId)
    (s : SystemState) (hrun : run_schedule cap sched (init_system cap mem0) = some s) :
    LoopInv s.parent ∧ LoopInv s.child ∧ MutexInv s
      ∧ (cap = MAX_PATIENTS → mem0.length = MAX_PATIENTS → QueueInv s) := by
  obtain ⟨hp, hc, hm, hq⟩ := run_schedule_inv cap sched _ s hrun loopInv_init loopInv_init
    (mutexInv_init cap mem0)
  refine ⟨hp, hc, hm, fun hcap hmem => hq hcap ?_⟩
  subst hcap
  exact queueInv_init mem0 hmem

/-! ## Steps that can be taken, and completion -/

theorem step_lock_eq (cap : Nat) (a : ActorId) (s : SystemState)
    (hloc : (s.actor a).loc = .lock) (h1 : 1 ≤ s.sem_mutex) :
    step cap a s = some ({ s with sem_mutex := s.sem_mutex - 1 }.setActor a
      { (s.actor a) with loc := .critical }) := by
  unfold step
  simp only [hloc, h1, if_true]

theorem step_lock_blocked (cap : Nat) (a : ActorId) (s : SystemState)
    (hloc : (s.actor a).loc = .lock) (h1 : ¬ 1 ≤ s.sem_mutex) :
    step cap a s = none := by
  unfold step
  simp only [hloc, h1, if_false]

theorem step_critical_eq (cap : Nat) (a : ActorId) (s : SystemState)
    (shm1 : PharmacySharedMemory) (ev : Event) (tr : List Access)
    (hloc : (s.actor a).loc = .critical)
    (hexec : exec_op cap (critical_op a (s.actor a).i) s.shm = some (shm1, ev, tr)) :
    step cap a s = some ({ s with shm := shm1 }.setActor a
      { (s.actor a) with loc := .unlock ev.ok, log := (s.actor a).log ++ [ev] }) := by
  cases a <;>
  · simp only [critical_op] at hexec
    unfold step
    simp only [hloc, hexec]

theorem step_unlock_eq (cap : Nat) (a : ActorId) (s : SystemState) (ok : Bool)
    (hloc : (s.actor a).loc = .unlock ok) :
    step cap a s = some ({ s with sem_mutex := s.sem_mutex + 1 }.setActor a
      (if ok then
        { (s.actor a) with unlocked := (s.actor a).unlocked ++ [ok], loc := .signal }
       else next_iteration { (s.actor a) with unlocked := (s.actor a).unlocked ++ [ok] })) := by
  unfold step
  simp only [hloc]

theorem step_signal_eq (cap : Nat) (a : ActorId) (s : SystemState)
    (hloc : (s.actor a).loc = .signal) :
    step cap a s = some ({ s with sem_patient := s.sem_patient + 1 }.setActor a
      (next_iteration (s.actor a))) := by
  unfold step
  simp only [hloc]

/-- One step keeps the shared memory well-formed. -/
theorem step_wellFormed (cap : Nat) (a : ActorId) (s s1 : SystemState)
    (hstep : step cap a s = some s1) (hwf : WellFormed cap s.shm) :
    WellFormed cap s1.shm := by
  rcases step_cases cap a s s1 hstep with ⟨_, _, rfl⟩ | ⟨_, shm1, ev, tr, hexec, rfl⟩
    | ⟨_, rfl⟩ | ⟨_, rfl⟩ | ⟨_, rfl⟩
  · rw [setActor_shm]; exact hwf
  · rw [setActor_shm]
    obtain ⟨shm2, ev2, tr2, hrun, hwf2, _⟩ := exec_op_spec cap _ s.shm hwf
    rw [hrun] at hexec
    obtain ⟨rfl, _, _⟩ : shm2 = shm1 ∧ ev2 = ev ∧ tr2 = tr := by simpa using hexec
    exact hwf2
  · rw [setActor_shm]; exact hwf
  · rw [setActor_shm]; exact hwf
  · rw [setActor_shm]; exact hwf

theorem run_schedule_wellFormed (cap : Nat) (sched : List ActorId) :
    ∀ (s s1 : SystemState), run_schedule cap sched s = some s1 →
    WellFormed cap s.shm → WellFormed cap s1.shm := by
  induction sched with
  | nil =>
    intro s s1 hrun hwf
    cases hrun
    exact hwf
  | cons a rest ih =>
    intro s s1 hrun hwf
    simp only [run_schedule] at hrun
    cases hstep : step cap a s with
    | none => rw [hstep] at hrun; cases hrun
    | some s2 =>
      rw [hstep] at hrun
      exact ih s2 s1 hrun (step_wellFormed cap a s s2 hstep hwf)

theorem holds_false_of_holders (a : ActorId) (s : SystemState) (h : s.holders = 0) :
    (s.actor a).holds = false := by
  rw [holders_eq] at h
  cases a
  · cases hp : (s.actor .parent).holds
    · rfl
    · rw [hp] at h; simp at h; split at h <;> omega
  · cases hc : (s.actor .child).holds
    · rfl
    · rw [hc] at h; simp at h; split at h <;> omega

/-- A process whose loop has not ended can take a step, unless it is at `sem_lock` while
the mutex is held. -/
theorem step_enabled (cap : Nat) (a : ActorId) (s : SystemState)
    (hwf : WellFormed cap s.shm) (hm : MutexInv s)
    (hnd : (s.actor a).loc ≠ .done)
    (hfree : (s.actor a).loc = .lock → s.holders = 0) :
    ∃ s1, step cap a s = some s1 := by
  cases hloc : (s.actor a).loc with
  | lock =>
    have := hfree hloc
    exact ⟨_, step_lock_eq cap a s hloc (by rw [hm.1, this]; decide)⟩
  | critical =>
    obtain ⟨shm1, ev, tr, hexec, _⟩ := exec_op_spec cap (critical_op a (s.actor a).i) s.shm hwf
    exact ⟨_, step_critical_eq cap a s shm1 ev tr hloc hexec⟩
  | unlock ok => exact ⟨_, step_unlock_eq cap a s ok hloc⟩
  | signal => exact ⟨_, step_signal_eq cap a s hloc⟩
  | done => exact absurd hloc hnd

/-- Every step of a process brings the end of its loop nearer. -/
theorem step_remaining (cap : Nat) (a : ActorId) (s s1 : SystemState)
    (hstep : step cap a s = some s1) (hinv : LoopInv (s.actor a)) :
    (s1.actor a).remaining < (s.actor a).remaining := by
  obtain ⟨h0, _, hnd, _, _, _⟩ := hinv
  have hnext : ∀ x : Actor, x.i = (s.actor a).i → (next_iteration x).remaining
      ≤ 4 * (5 - (s.actor a).i).toNat - 4 := by
    intro x hx
    unfold next_iteration Actor.remaining
    by_cases h : x.i + 1 < 5
    · simp only [h, if_true]; omega
    · simp only [h, if_false]; omega
  rcases step_cases cap a s s1 hstep with ⟨hloc, _, rfl⟩ | ⟨hloc, _, _, _, _, rfl⟩
    | ⟨hloc, rfl⟩ | ⟨hloc, rfl⟩ | ⟨hloc, rfl⟩
  · have h5 := hnd (by rw [hloc]; simp)
    rw [actor_setActor]
    simp only [Actor.remaining, hloc]
    omega
  · have h5 := hnd (by rw [hloc]; simp)
    rw [actor_setActor]
    simp only [Actor.remaining, hloc]
    omega
  · have h5 := hnd (by rw [hloc]; simp)
    rw [actor_setActor]
    simp only [Actor.remaining, hloc]
    omega
  · have h5 := hnd (by rw [hloc]; simp)
    rw [actor_setActor]
    have := hnext { (s.actor a) with unlocked := (s.actor a).unlocked ++ [false] } rfl
    simp only [Actor.remaining, hloc] at this ⊢
    omega
  · have h5 := hnd (by rw [hloc]; simp)
    rw [actor_setActor]
    have := hnext (s.actor a) rfl
    simp only [Actor.remaining, hloc] at this ⊢
    omega

/-- Unless both loops have ended, one of the processes can take a step. -/
theorem exists_enabled (cap : Nat) (s : SystemState)
    (hm : MutexInv s) (hwf : WellFormed cap s.shm) (hfin : ¬ s.finished) :
    ∃ a s1, step cap a s = some s1 := by
  by_cases hp : (s.actor .parent).holds = true
  · obtain ⟨s1, h⟩ := step_enabled cap .parent s hwf hm
      (by intro h; simp [Actor.holds, h] at hp) (by intro h; simp [Actor.holds, h] at hp)
    exact ⟨_, s1, h⟩
  · by_cases hc : (s.actor .child).holds = true
    · obtain ⟨s1, h⟩ := step_enabled cap .child s hwf hm
        (by intro h; simp [Actor.holds, h] at hc) (by intro h; simp [Actor.holds, h] at hc)
      exact ⟨_, s1, h⟩
    · have hfree : s.holders = 0 := by
        rw [holders_eq]
        simp [hp, hc]
      by_cases hpd : (s.actor .parent).loc = .done
      · have hcd : (s.actor .child).loc ≠ .done := fun h => hfin ⟨hpd, h⟩
        obtain ⟨s1, h⟩ := step_enabled cap .child s hwf hm hcd (fun _ => hfree)
        exact ⟨_, s1, h⟩
      · obtain ⟨s1, h⟩ := step_enabled cap .parent s hwf hm hpd (fun _ => hfree)
        exact ⟨_, s1, h⟩

/-- One step lowers the total number of remaining steps. -/
theorem step_total_remaining (cap : Nat) (a : ActorId) (s s1 : SystemState)
    (hstep : step cap a s = some s1) (hp : LoopInv s.parent) (hc : LoopInv s.child) :
    s1.parent.remaining + s1.child.remaining < s.parent.remaining + s.child.remaining := by
  cases a
  · have h1 := step_remaining cap .parent s s1 hstep hp
    have h2 := step_other cap .parent .child s s1 hstep (by decide)
    simp only [SystemState.actor] at h1 h2
    rw [h2]; omega
  · have h1 := step_remaining cap .child s s1 hstep hc
    have h2 := step_other cap .child .parent s s1 hstep (by decide)
    simp only [SystemState.actor] at h1 h2
    rw [h2]; omega

/-- From every state that satisfies the invariants both loops can be run to their end. -/
theorem completion (cap : Nat) : ∀ (n : Nat) (s : SystemState),
    s.parent.remaining + s.child.remaining ≤ n →
    LoopInv s.parent → LoopInv s.child → MutexInv s → WellFormed cap s.shm →
    ∃ rest s2, run_schedule cap rest s = some s2 ∧ s2.finished := by
  intro n
  induction n with
  | zero =>
    intro s hn hp hc hm hwf
    by_cases hfin : s.finished
    · exact ⟨[], s, rfl, hfin⟩
    · obtain ⟨a, s1, hstep⟩ := exists_enabled cap s hm hwf hfin
      have := step_total_remaining cap a s s1 hstep hp hc
      omega
  | succ n ih =>
    intro s hn hp hc hm hwf
    by_cases hfin : s.finished
    · exact ⟨[], s, rfl, hfin⟩
    · obtain ⟨a, s1, hstep⟩ := exists_enabled cap s hm hwf hfin
      have hlt := step_total_remaining cap a s s1 hstep hp hc
      have hinv := run_schedule_inv cap [a] s s1 (by simp [run_schedule, hstep]) hp hc hm
      obtain ⟨rest, s2, hrun, hfin2⟩ := ih s1 (by omega) hinv.1 hinv.2.1 hinv.2.2.1
        (step_wellFormed cap a s s1 hstep hwf)
      exact ⟨a :: rest, s2, by simp [run_schedule, hstep, hrun], hfin2⟩

theorem holders_nonneg (s : SystemState) : 0 ≤ s.holders := by
  rw [holders_eq]
  split <;> split <;> omega

theorem holders_pos_of_holds (a : ActorId) (s : SystemState)
    (h : (s.actor a).holds = true) : 1 ≤ s.holders := by
  rw [holders_eq]
  cases a
  · rw [h]; simp only [if_true]; split <;> omega
  · rw [h]; simp only [if_true]; split <;> omega

/-- What `sem_lock(sem_mutex)` does: it can be passed exactly when no process holds the
mutex, and the process that passes it holds the mutex, the semaphore being 0. -/
theorem acquire_step (cap : Nat) (a : ActorId) (s : SystemState) (hm : MutexInv s)
    (hloc : (s.actor a).loc = .lock) :
    ((step cap a s).isSome = true ↔ s.holders = 0)
    ∧ ∀ s1, step cap a s = some s1 →
        (s1.actor a).holds = true ∧ s1.sem_mutex = 0
        ∧ (s1.actor a).unlocked = (s.actor a).unlocked := by
  obtain ⟨hval, hnn⟩ := hm
  have hh := holders_nonneg s
  constructor
  · constructor
    · intro hsome
      by_cases h1 : 1 ≤ s.sem_mutex
      · omega
      · rw [step_lock_blocked cap a s hloc h1] at hsome
        cases hsome
    · intro h0
      rw [step_lock_eq cap a s hloc (by omega)]
      rfl
  · intro s1 hstep
    by_cases h1 : 1 ≤ s.sem_mutex
    · rw [step_lock_eq cap a s hloc h1] at hstep
      cases hstep
      rw [actor_setActor, setActor_sem_mutex]
      refine ⟨rfl, ?_, rfl⟩
      show s.sem_mutex - 1 = 0
      omega
    · rw [step_lock_blocked cap a s hloc h1] at hstep
      cases hstep

/-- What the critical section does to the process: it returns, and the process is then
before its `sem_unlock(sem_mutex)` on the branch of the outcome, the semaphore and the
releases unchanged. -/
theorem critical_step (cap : Nat) (a : ActorId) (s : SystemState)
    (hwf : WellFormed cap s.shm) (hloc : (s.actor a).loc = .critical) :
    ∃ s1 ev, step cap a s = some s1 ∧ (s1.actor a).loc = .unlock ev.ok
      ∧ (s1.actor a).log = (s.actor a).log ++ [ev]
      ∧ s1.sem_mutex = s.sem_mutex ∧ (s1.actor a).unlocked = (s.actor a).unlocked
      ∧ (s1.actor a).i = (s.actor a).i := by
  obtain ⟨shm1, ev, tr, hexec, _⟩ := exec_op_spec cap (critical_op a (s.actor a).i) s.shm hwf
  refine ⟨_, ev, step_critical_eq cap a s shm1 ev tr hloc hexec, ?_⟩
  rw [actor_setActor, setActor_sem_mutex]
  exact ⟨rfl, rfl, rfl, rfl, rfl⟩

/-- What `sem_unlock(sem_mutex)` does: it can always be taken, raises the semaphore from 0 to
1, is recorded as one release on the branch the process is on, and leaves the process
outside the mutex, before its signal (success branch) or at its next iteration. -/
theorem release_step (cap : Nat) (a : ActorId) (s : SystemState) (hm : MutexInv s)
    (ok : Bool) (hloc : (s.actor a).loc = .unlock ok) :
    ∃ s1, step cap a s = some s1 ∧ s.sem_mutex = 0 ∧ s1.sem_mutex = 1
      ∧ (s1.actor a).unlocked = (s.actor a).unlocked ++ [ok]
      ∧ (s1.actor a).holds = false ∧ s1.shm = s.shm
      ∧ (ok = true → (s1.actor a).loc = .signal ∧ (s1.actor a).i = (s.actor a).i)
      ∧ (ok = false → (s1.actor a).i = (s.actor a).i + 1) := by
  obtain ⟨hval, hnn⟩ := hm
  have hholds : (s.actor a).holds = true := by simp [Actor.holds, hloc]
  have hpos := holders_pos_of_holds a s hholds
  have h0 : s.sem_mutex = 0 := by omega
  refine ⟨_, step_unlock_eq cap a s ok hloc, h0, ?_, ?_⟩
  · rw [setActor_sem_mutex]
    show s.sem_mutex + 1 = 1
    omega
  · rw [actor_setActor, setActor_shm]
    cases ok
    · refine ⟨rfl, next_iteration_holds _, rfl, ?_, fun _ => rfl⟩
      intro h; cases h
    · refine ⟨rfl, rfl, rfl, fun _ => ⟨rfl, rfl⟩, ?_⟩
      intro h; cases h

/-- What `sem_unlock(sem_patient)` does: it can always be taken, increments the patient
semaphore and ends the iteration; the mutex semaphore and the releases are unchanged. -/
theorem signal_step (cap : Nat) (a : ActorId) (s : SystemState)
    (hloc : (s.actor a).loc = .signal) :
    ∃ s1, step cap a s = some s1 ∧ s1.sem_mutex = s.sem_mutex
      ∧ s1.sem_patient = s.sem_patient + 1
      ∧ (s1.actor a).unlocked = (s.actor a).unlocked
      ∧ (s1.actor a).i = (s.actor a).i + 1 ∧ s1.shm = s.shm := by
  refine ⟨_, step_signal_eq cap a s hloc, ?_⟩
  rw [actor_setActor, setActor_sem_mutex, setActor_sem_patient, setActor_shm]
  exact ⟨rfl, rfl, rfl, rfl, rfl⟩

/-- At the end of both loops each process has released the mutex five times and the mutex
is free. -/
theorem finished_releases (s : SystemState) (hp : LoopInv s.parent) (hc : LoopInv s.child)
    (hm : MutexInv s) (hfin : s.finished) :
    s.parent.unlocked.length = 5 ∧ s.child.unlocked.length = 5 ∧ s.sem_mutex = 1 := by
  obtain ⟨hpd, hcd⟩ := hfin
  obtain ⟨_, hpi, _, _, hpu, _⟩ := hp
  obtain ⟨_, hci, _, _, hcu, _⟩ := hc
  have h1 := hpi hpd
  have h2 := hci hcd
  rw [hpd] at hpu
  rw [hcd] at hcu
  simp only [Loc.past_unlock] at hpu hcu
  refine ⟨by omega, by omega, ?_⟩
  rw [hm.1]
  simp [SystemState.holders, Actor.holds, hpd, hcd]

/-- The parent's critical section in the run of the program: the queue is not full, and
the step stores the patient of the iteration in `patients[count]`, at the end of the
queue. -/
theorem parent_critical_step (s : SystemState) (hloop : LoopInv s.parent)
    (hinv : QueueInv s) (hloc : s.parent.loc = .critical) :
    s.shm.count < (MAX_PATIENTS : Int)
    ∧ ∃ s1, step MAX_PATIENTS .parent s = some s1
      ∧ s1.parent.loc = .unlock true
      ∧ s1.parent.log = s.parent.log ++ [.added (new_patient s.parent.i)]
      ∧ s1.shm.count = s.shm.count + 1
      ∧ readPatient s1.shm.patients s.shm.count = some (new_patient s.parent.i)
      ∧ contents s1.shm = contents s.shm ++ [new_patient s.parent.i] := by
  obtain ⟨hwf, hfifo, hlog, _⟩ := hinv
  have hcount := contents_length MAX_PATIENTS s.shm hwf
  have hlen : (enqueued s.parent.log).length = s.parent.log.length := by
    rw [hlog, enqueued_map_added]; simp
  have hle : s.shm.count ≤ (s.parent.log.length : Int) := by
    have := congrArg List.length hfifo
    rw [List.length_append, hlen] at this
    omega
  obtain ⟨_, _, hnd, hll, _, _⟩ := hloop
  rw [hloc] at hnd hll
  have h5 := hnd (by simp)
  simp only [Loc.past_critical, add_zero] at hll
  have hroom : s.shm.count < (MAX_PATIENTS : Int) := by
    simp only [MAX_PATIENTS]; push_cast; omega
  obtain ⟨shm2, tr2, hrun, hc, hcnt, hwf2, _⟩ :=
    exec_produce_ok MAX_PATIENTS s.parent.i s.shm hwf hroom
  refine ⟨hroom, _, step_critical_eq MAX_PATIENTS .parent s shm2 _ tr2 hloc hrun, rfl, rfl,
    hcnt, ?_, hc⟩
  show readPatient shm2.patients s.shm.count = some (new_patient s.parent.i)
  have h0 := hwf.2.1
  have hget := congrArg (fun l => l[s.shm.count.toNat]?) hc
  simp only [contents, hcnt] at hget
  rw [List.getElem?_take] at hget
  have e1 : (s.shm.count + 1).toNat = s.shm.count.toNat + 1 := by omega
  have e2 : (List.take s.shm.count.toNat s.shm.patients).length = s.shm.count.toNat := by
    have := hwf.1
    have := hwf.2.2
    simp only [List.length_take]
    omega
  rw [e1, if_pos (Nat.lt_succ_self _), List.getElem?_append_right (by omega), e2,
    Nat.sub_self] at hget
  simp only [readPatient, h0, if_true]
  simpa using hget

/-! ## The queue, one critical section at a time -/

/-- C1 (occupancy bound).  Starting from `count = 0` (line 64), every finite sequence of
producer and consumer critical sections, run one at a time in any order, returns; the final
`count` satisfies `0 ≤ count ≤ MAX_PATIENTS`, and every array index read or written along the
way lies in `0 .. MAX_PATIENTS - 1`.  Every prefix of a sequence is itself a sequence, so the
bound holds after each step. -/
theorem C1_occupancy_bound (mem0 : List Patient) (hmem : mem0.length = MAX_PATIENTS)
    (ops : List Op) :
    ∃ shm evs tr, run_ops MAX_PATIENTS ops (init_shm mem0) = some (shm, evs, tr)
      ∧ 0 ≤ shm.count ∧ shm.count ≤ (MAX_PATIENTS : Int)
      ∧ ∀ a ∈ tr, 0 ≤ a.idx ∧ a.idx ≤ (MAX_PATIENTS : Int) - 1 := by
  have hwf : WellFormed MAX_PATIENTS (init_shm mem0) := hmem ▸ wellFormed_init mem0
  obtain ⟨shm, evs, tr, hrun, hwf1, htr, _, _⟩ := run_ops_spec MAX_PATIENTS ops _ hwf
  refine ⟨shm, evs, tr, hrun, hwf1.2.1, hwf1.2.2, ?_⟩
  intro a ha
  have := htr a ha
  omega

/-- Witness for C1: two additions, three removals and a further addition on a fresh
segment. -/
theorem C1_occupancy_bound_witness :
    (zero_mem 10).length = MAX_PATIENTS
    ∧ ∃ shm evs tr, run_ops MAX_PATIENTS demo_ops (init_shm (zero_mem 10)) = some (shm, evs, tr)
      ∧ 0 ≤ shm.count ∧ shm.count ≤ (MAX_PATIENTS : Int)
      ∧ ∀ a ∈ tr, 0 ≤ a.idx ∧ a.idx ≤ (MAX_PATIENTS : Int) - 1 :=
  ⟨by decide, C1_occupancy_bound (zero_mem 10) (by decide) demo_ops⟩

/-- C2 (FIFO).  For every sequence of producer and consumer critical sections run from the
empty queue, the items removed by the successful consumer steps form an initial segment of
the items added by the successful producer steps, and `patients[0 .. count-1]` holds exactly
the remaining added items, in the same order.  Each added item is the one built by a
producer step of the sequence. -/
theorem C2_fifo_order (mem0 : List Patient) (hmem : mem0.length = MAX_PATIENTS)
    (ops : List Op) :
    ∃ shm evs tr, run_ops MAX_PATIENTS ops (init_shm mem0) = some (shm, evs, tr)
      ∧ dequeued evs <+: enqueued evs
      ∧ contents shm = (enqueued evs).drop (dequeued evs).length
      ∧ enqueued evs = dequeued evs ++ contents shm
      ∧ ∀ p ∈ enqueued evs, ∃ i, Op.produce i ∈ ops ∧ p = new_patient i := by
  have hwf : WellFormed MAX_PATIENTS (init_shm mem0) := hmem ▸ wellFormed_init mem0
  obtain ⟨shm, evs, tr, hrun, _, _, hq, hp⟩ := run_ops_spec MAX_PATIENTS ops _ hwf
  rw [contents_init, List.nil_append] at hq
  refine ⟨shm, evs, tr, hrun, ⟨contents shm, hq.symm⟩, ?_, hq, hp⟩
  rw [hq, List.drop_left]

/-- Witness for C2: the same sequence as for C1. -/
theorem C2_fifo_order_witness :
    (zero_mem 10).length = MAX_PATIENTS
    ∧ ∃ shm evs tr, run_ops MAX_PATIENTS demo_ops (init_shm (zero_mem 10)) = some (shm, evs, tr)
      ∧ dequeued evs <+: enqueued evs
      ∧ contents shm = (enqueued evs).drop (dequeued evs).length
      ∧ enqueued evs = dequeued evs ++ contents shm
      ∧ ∀ p ∈ enqueued evs, ∃ i, Op.produce i ∈ demo_ops ∧ p = new_patient i :=
  ⟨by decide, C2_fifo_order (zero_mem 10) (by decide) demo_ops⟩

/-- C3 (enqueue on a full queue).  For every capacity `N` and every memory with
`count = N`, the producer step takes the full branch: it reports `full`, accesses no array
slot and leaves `count` and the whole array unchanged.  In particular for `N = 1`: after one
successful step on the empty queue, a second step reports `full` and the stored item is
still the first one. -/
theorem C3_enqueue_on_full (N : Nat) (i : Int) (shm : PharmacySharedMemory)
    (hfull : shm.count = (N : Int)) :
    producer_cs N i shm = some (shm, .full, [])
    ∧ ∀ (slot : Patient) (i1 i2 : Int), ∃ shm1 tr,
        producer_cs 1 i1 (init_shm [slot]) = some (shm1, .added (stored_label i1), tr)
        ∧ shm1 = { patients := [new_patient i1], count := 1 }
        ∧ producer_cs 1 i2 shm1 = some (shm1, .full, []) := by
  refine ⟨producer_cs_full N i shm (by omega), ?_⟩
  intro slot i1 i2
  refine ⟨{ patients := [new_patient i1], count := 1 }, [.write 0, .write 0, .read 0], ?_,
    rfl, ?_⟩
  · simp [producer_cs, init_shm, writeId, writeName, readPatient, writePatient, new_patient]
  · exact producer_cs_full 1 i2 _ (by simp)

/-- Witness for C3: the queue of the program (capacity 10) holding ten patients. -/
theorem C3_enqueue_on_full_witness :
    full_shm.count = ((10 : Nat) : Int)
    ∧ (producer_cs 10 7 full_shm = some (full_shm, .full, [])
      ∧ ∀ (slot : Patient) (i1 i2 : Int), ∃ shm1 tr,
        producer_cs 1 i1 (init_shm [slot]) = some (shm1, .added (stored_label i1), tr)
        ∧ shm1 = { patients := [new_patient i1], count := 1 }
        ∧ producer_cs 1 i2 shm1 = some (shm1, .full, [])) :=
  ⟨by decide, C3_enqueue_on_full 10 7 full_shm (by decide)⟩

/-- C4 (dequeue on an empty queue).  For every memory with `count == 0` the consumer step
takes the empty branch: it reports `empty` (no patient is administered), accesses no array
slot and leaves `count` and the whole array unchanged. -/
theorem C4_dequeue_on_empty (shm : PharmacySharedMemory) (hempty : shm.count = 0) :
    consumer_cs shm = some (shm, .empty, []) :=
  consumer_cs_empty shm (by omega)

/-- Witness for C4: the memory right after line 64 on a fresh segment. -/
theorem C4_dequeue_on_empty_witness :
    (init_shm (zero_mem 10)).count = 0
    ∧ consumer_cs (init_shm (zero_mem 10)) = some (init_shm (zero_mem 10), .empty, []) :=
  ⟨by decide, C4_dequeue_on_empty (init_shm (zero_mem 10)) (by decide)⟩

/-- C5 (round trip).  For every `k ≤ MAX_PATIENTS` and every list of `k` loop values,
starting from the empty queue, `k` producer steps followed by `k` consumer steps all succeed:
the producer steps add the items built from the values, the consumer steps remove the same
items in the same order, and the final `count` is 0. -/
theorem C5_round_trip (k : Nat) (hk : k ≤ MAX_PATIENTS) (ids : List Int)
    (hids : ids.length = k) (mem0 : List Patient) (hmem : mem0.length = MAX_PATIENTS) :
    ∃ shm tr,
      run_ops MAX_PATIENTS (ids.map .produce ++ List.replicate k .consume) (init_shm mem0)
        = some (shm, ids.map (fun i => .added (new_patient i))
                  ++ ids.map (fun i => .removed (new_patient i)), tr)
      ∧ shm.count = 0 := by
  subst hids
  have hwf : WellFormed MAX_PATIENTS (init_shm mem0) := hmem ▸ wellFormed_init mem0
  obtain ⟨shm1, tr1, hrun1, hc1, hwf1⟩ :=
    run_produce_all MAX_PATIENTS ids (init_shm mem0) hwf (by simpa [init_shm] using hk)
  rw [contents_init, List.nil_append] at hc1
  obtain ⟨shm2, tr2, hrun2, hcnt, _⟩ :=
    run_consume_all MAX_PATIENTS (ids.map new_patient) shm1 hwf1 hc1
  rw [List.length_map] at hrun2
  refine ⟨shm2, tr1 ++ tr2, ?_, hcnt⟩
  rw [run_ops_append, hrun1]
  simp only [hrun2, List.map_map]
  rfl

/-- Witness for C5: three patients. -/
theorem C5_round_trip_witness :
    3 ≤ MAX_PATIENTS ∧ ([7, 8, 9] : List Int).length = 3
    ∧ (zero_mem 10).length = MAX_PATIENTS
    ∧ ∃ shm tr,
      run_ops MAX_PATIENTS (([7, 8, 9] : List Int).map .produce ++ List.replicate 3 .consume)
          (init_shm (zero_mem 10))
        = some (shm, ([7, 8, 9] : List Int).map (fun i => .added (new_patient i))
                  ++ ([7, 8, 9] : List Int).map (fun i => .removed (new_patient i)), tr)
      ∧ shm.count = 0 :=
  ⟨by decide, by decide, by decide,
    C5_round_trip 3 (by decide) [7, 8, 9] (by decide) (zero_mem 10) (by decide)⟩

/-- C10 (dequeue step).  For every memory with `1 ≤ count ≤ MAX_PATIENTS` holding
`x0 :: rest` in `patients[0 .. count-1]`, the consumer step succeeds, administers `x0`,
decreases `count` by exactly 1 and leaves `rest` in `patients[0 .. count-2]` in the same
order; every index the step reads (the shift loop included) is below the old `count`. -/
theorem C10_dequeue_step (shm : PharmacySharedMemory)
    (hlen : shm.patients.length = MAX_PATIENTS) (h1 : 1 ≤ shm.count)
    (h2 : shm.count ≤ (MAX_PATIENTS : Int)) :
    ∃ x0 rest shm1 tr, contents shm = x0 :: rest
      ∧ consumer_cs shm = some (shm1, .administered x0, tr)
      ∧ shm1.count = shm.count - 1
      ∧ contents shm1 = rest
      ∧ ∀ a ∈ tr, a.isRead = true → 0 ≤ a.idx ∧ a.idx < shm.count := by
  obtain ⟨p, rest, shm1, tr, hc, hrun, hc1, hcnt, _, htr⟩ :=
    consumer_cs_ok MAX_PATIENTS shm ⟨hlen, by omega, h2⟩ (by omega)
  exact ⟨p, rest, shm1, tr, hc, hrun, hcnt, hc1, fun a ha _ => htr a ha⟩

/-- Witness for C10: the full queue of ten patients. -/
theorem C10_dequeue_step_witness :
    full_shm.patients.length = MAX_PATIENTS ∧ 1 ≤ full_shm.count
    ∧ full_shm.count ≤ (MAX_PATIENTS : Int)
    ∧ ∃ x0 rest shm1 tr, contents full_shm = x0 :: rest
      ∧ consumer_cs full_shm = some (shm1, .administered x0, tr)
      ∧ shm1.count = full_shm.count - 1
      ∧ contents shm1 = rest
      ∧ ∀ a ∈ tr, a.isRead = true → 0 ≤ a.idx ∧ a.idx < full_shm.count :=
  ⟨by decide, by decide, by decide, C10_dequeue_step full_shm (by decide) (by decide) (by decide)⟩

/-! ## The run of the program: both loops, every interleaving -/

/-- C6, as the claim states it, fails: in the schedule where the child runs its five
iterations before the parent's first `sem_lock`, every child iteration finds `count == 0`.
Both loops finish, the child has removed no patient and `count` is 5. -/
theorem C6_end_to_end_counterexample :
    run_schedule MAX_PATIENTS consumer_first (init_system MAX_PATIENTS (zero_mem 10))
      = some consumer_first_final
    ∧ consumer_first_final.finished
    ∧ consumer_first_final.shm.count = 5
    ∧ dequeued consumer_first_final.child.log = []
    ∧ ¬ (consumer_first_final.shm.count = 0
        ∧ (dequeued consumer_first_final.child.log).map Patient.id = [0, 1, 2, 3, 4]) := by
  decide

/-- C6 (end-to-end run), amended.  With capacity 10, for every interleaving of the two loops,
once both have finished the child has removed exactly `k = 5 - e` patients, where `e` is the
number of its five iterations that found the queue empty; these are the patients
`0, .., k-1` in that order, and the shared `count` is `5 - k`. -/
theorem C6_end_to_end_amended (mem0 : List Patient) (hmem : mem0.length = MAX_PATIENTS)
    (sched : List ActorId) (s : SystemState)
    (hrun : run_schedule MAX_PATIENTS sched (init_system MAX_PATIENTS mem0) = some s)
    (hfin : s.finished) :
    ∃ k : Nat, k ≤ 5 ∧ k + s.child.log.count .empty = 5
      ∧ dequeued s.child.log = (List.range k).map (fun (j : Nat) => new_patient (j : Int))
      ∧ s.shm.count = 5 - (k : Int) := by
  obtain ⟨hp, hc, _, hq⟩ := reachable_inv MAX_PATIENTS mem0 sched s hrun
  obtain ⟨hwf, hfifo, hlog, hch⟩ := hq rfl hmem
  obtain ⟨hpd, hcd⟩ := hfin
  obtain ⟨_, hpi, _, hpl, _, _⟩ := hp
  obtain ⟨_, hci, _, hcl, _, _⟩ := hc
  have hplen : s.parent.log.length = 5 := by
    have := hpi hpd
    rw [hpd] at hpl
    simp only [Loc.past_critical] at hpl
    omega
  have hclen : s.child.log.length = 5 := by
    have := hci hcd
    rw [hcd] at hcl
    simp only [Loc.past_critical] at hcl
    omega
  have henq : enqueued s.parent.log
      = (List.range 5).map (fun (j : Nat) => new_patient (j : Int)) := by
    rw [hlog, enqueued_map_added, hplen]
  have hcount := contents_length MAX_PATIENTS s.shm hwf
  have hsum : (dequeued s.child.log).length + (contents s.shm).length = 5 := by
    have := congrArg List.length hfifo
    rw [henq, List.length_append] at this
    simpa using this.symm
  refine ⟨(dequeued s.child.log).length, by omega, by omega, ?_, by omega⟩
  have htake := congrArg (List.take (dequeued s.child.log).length) hfifo
  rw [List.take_left, henq, ← List.map_take, List.take_range] at htake
  rw [Nat.min_eq_left (by omega)] at htake
  exact htake.symm

/-- Witness for the amended C6: the schedule in which each parent iteration is followed by a
child iteration; all five patients are removed. -/
theorem C6_end_to_end_amended_witness :
    (zero_mem 10).length = MAX_PATIENTS
    ∧ run_schedule MAX_PATIENTS alternating (init_system MAX_PATIENTS (zero_mem 10))
        = some alternating_final
    ∧ alternating_final.finished
    ∧ ∃ k : Nat, k ≤ 5 ∧ k + alternating_final.child.log.count .empty = 5
      ∧ dequeued alternating_final.child.log
          = (List.range k).map (fun (j : Nat) => new_patient (j : Int))
      ∧ alternating_final.shm.count = 5 - (k : Int) :=
  ⟨by decide, by decide, by decide,
    C6_end_to_end_amended (zero_mem 10) (by decide) alternating alternating_final
      (by decide) (by decide)⟩

/-- The parent's log once its loop has ended: the five patients, in order. -/
theorem parent_log_done (s : SystemState) (hloop : LoopInv s.parent) (hinv : QueueInv s)
    (hd : s.parent.loc = .done) :
    s.parent.log = [.added { id := 0, name := "Patient 0" },
        .added { id := 1, name := "Patient 1" },
        .added { id := 2, name := "Patient 2" },
        .added { id := 3, name := "Patient 3" },
        .added { id := 4, name := "Patient 4" }] := by
  obtain ⟨_, _, hlog, _⟩ := hinv
  obtain ⟨_, hpi, _, hpl, _, _⟩ := hloop
  have hplen : s.parent.log.length = 5 := by
    have := hpi hd
    rw [hd] at hpl
    simp only [Loc.past_critical] at hpl
    omega
  rw [hlog, hplen]
  decide

/-- C7 (producer output).  With capacity 10, in every state the two loops can reach, every
critical section the parent has run succeeded: its `j`-th critical section added the patient
`(j, "Patient j")`, none found the queue full, and one critical section was run per
iteration.  Once the parent's loop has ended it has added exactly `(0, "Patient 0")` to
`(4, "Patient 4")`, in order; each of these labels is the full formatted text, untruncated
by the 100-byte `snprintf`.  The items are in the shared memory: what the parent added is
what the child removed (read from `patients[0]`) followed by `patients[0 .. count-1]`, and
whenever the parent is about to run its critical section the queue is not full and the
step stores `(i, "Patient i")` in `patients[count]`, at the end of the queue, and increments
`count`.  From every reachable state the run can be continued until both loops have ended,
the parent then having added the five patients. -/
theorem C7_producer_output (mem0 : List Patient) (hmem : mem0.length = MAX_PATIENTS)
    (sched : List ActorId) (s : SystemState)
    (hrun : run_schedule MAX_PATIENTS sched (init_system MAX_PATIENTS mem0) = some s) :
    (s.parent.log
          = (List.range s.parent.log.length).map
              (fun (j : Nat) => .added (new_patient (j : Int)))
      ∧ Event.full ∉ s.parent.log
      ∧ (s.parent.log.length : Int) = s.parent.i + s.parent.loc.past_critical
      ∧ (s.parent.loc = .done →
          s.parent.log = [.added { id := 0, name := "Patient 0" },
              .added { id := 1, name := "Patient 1" },
              .added { id := 2, name := "Patient 2" },
              .added { id := 3, name := "Patient 3" },
              .added { id := 4, name := "Patient 4" }])
      ∧ (∀ j : Nat, j < 5 → stored_label (j : Int) = format_label (j : Int))
      ∧ enqueued s.parent.log = dequeued s.child.log ++ contents s.shm
      ∧ (s.parent.loc = .critical →
          s.shm.count < (MAX_PATIENTS : Int)
          ∧ ∃ s1, step MAX_PATIENTS .parent s = some s1
            ∧ s1.parent.loc = .unlock true
            ∧ s1.parent.log = s.parent.log ++ [.added (new_patient s.parent.i)]
            ∧ s1.shm.count = s.shm.count + 1
            ∧ readPatient s1.shm.patients s.shm.count = some (new_patient s.parent.i)
            ∧ contents s1.shm = contents s.shm ++ [new_patient s.parent.i])
      ∧ (∃ rest s2, run_schedule MAX_PATIENTS rest s = some s2 ∧ s2.finished
          ∧ s2.parent.log = [.added { id := 0, name := "Patient 0" },
              .added { id := 1, name := "Patient 1" },
              .added { id := 2, name := "Patient 2" },
              .added { id := 3, name := "Patient 3" },
              .added { id := 4, name := "Patient 4" }])) := by
  obtain ⟨hp, hc, hm, hq⟩ := reachable_inv MAX_PATIENTS mem0 sched s hrun
  have hqi := hq rfl hmem
  have hwf := hqi.1
  have hfifo := hqi.2.1
  have hlog := hqi.2.2.1
  have hpl := hp.2.2.2.1
  refine ⟨hlog, ?_, hpl, parent_log_done s hp hqi, ?_, hfifo,
    parent_critical_step s hp hqi, ?_⟩
  · intro hmem
    rw [hlog] at hmem
    simp at hmem
  · intro j hj
    interval_cases j <;> decide
  · obtain ⟨rest, s2, hrun2, hfin2⟩ := completion MAX_PATIENTS _ s (Nat.le_refl _) hp hc hm hwf
    obtain ⟨hp2, _, _, hq2⟩ := run_schedule_inv MAX_PATIENTS rest s s2 hrun2 hp hc hm
    exact ⟨rest, s2, hrun2, hfin2, parent_log_done s2 hp2 (hq2 rfl hqi) hfin2.1⟩

/-- Witness for C7, at two states.  In `consumer_first_final` both loops have ended and the
parent has added its five patients.  In `parent_second_critical` the parent is about to run
the critical section of iteration `i = 1` on a queue with `count = 0`: the step stores
patient 1 in `patients[0]`. -/
theorem C7_producer_output_witness :
    (zero_mem 10).length = MAX_PATIENTS
    ∧ run_schedule MAX_PATIENTS consumer_first (init_system MAX_PATIENTS (zero_mem 10))
        = some consumer_first_final
    ∧ consumer_first_final.parent.loc = .done
    ∧
    (consumer_first_final.parent.log
          = (List.range consumer_first_final.parent.log.length).map
              (fun (j : Nat) => .added (new_patient (j : Int)))
      ∧ Event.full ∉ consumer_first_final.parent.log
      ∧ (consumer_first_final.parent.log.length : Int) = consumer_first_final.parent.i + consumer_first_final.parent.loc.past_critical
      ∧ (consumer_first_final.parent.loc = .done →
          consumer_first_final.parent.log = [.added { id := 0, name := "Patient 0" },
              .added { id := 1, name := "Patient 1" },
              .added { id := 2, name := "Patient 2" },
              .added { id := 3, name := "Patient 3" },
              .added { id := 4, name := "Patient 4" }])
      ∧ (∀ j : Nat, j < 5 → stored_label (j : Int) = format_label (j : Int))
      ∧ enqueued consumer_first_final.parent.log = dequeued consumer_first_final.child.log ++ contents consumer_first_final.shm
      ∧ (consumer_first_final.parent.loc = .critical →
          consumer_first_final.shm.count < (MAX_PATIENTS : Int)
          ∧ ∃ s1, step MAX_PATIENTS .parent consumer_first_final = some s1
            ∧ s1.parent.loc = .unlock true
            ∧ s1.parent.log = consumer_first_final.parent.log ++ [.added (new_patient consumer_first_final.parent.i)]
            ∧ s1.shm.count = consumer_first_final.shm.count + 1
            ∧ readPatient s1.shm.patients consumer_first_final.shm.count = some (new_patient consumer_first_final.parent.i)
            ∧ contents s1.shm = contents consumer_first_final.shm ++ [new_patient consumer_first_final.parent.i])
      ∧ (∃ rest s2, run_schedule MAX_PATIENTS rest consumer_first_final = some s2 ∧ s2.finished
          ∧ s2.parent.log = [.added { id := 0, name := "Patient 0" },
              .added { id := 1, name := "Patient 1" },
              .added { id := 2, name := "Patient 2" },
              .added { id := 3, name := "Patient 3" },
              .added { id := 4, name := "Patient 4" }]))
    ∧ run_schedule MAX_PATIENTS
        [.parent, .parent, .parent, .parent, .child, .child, .child, .child, .parent]
        (init_system MAX_PATIENTS (zero_mem 10)) = some parent_second_critical
    ∧ parent_second_critical.parent.loc = .critical
    ∧
    (parent_second_critical.parent.log
          = (List.range parent_second_critical.parent.log.length).map
              (fun (j : Nat) => .added (new_patient (j : Int)))
      ∧ Event.full ∉ parent_second_critical.parent.log
      ∧ (parent_second_critical.parent.log.length : Int) = parent_second_critical.parent.i + parent_second_critical.parent.loc.past_critical
      ∧ (parent_second_critical.parent.loc = .done →
          parent_second_critical.parent.log = [.added { id := 0, name := "Patient 0" },
              .added { id := 1, name := "Patient 1" },
              .added { id := 2, name := "Patient 2" },
              .added { id := 3, name := "Patient 3" },
              .added { id := 4, name := "Patient 4" }])
      ∧ (∀ j : Nat, j < 5 → stored_label (j : Int) = format_label (j : Int))
      ∧ enqueued parent_second_critical.parent.log = dequeued parent_second_critical.child.log ++ contents parent_second_critical.shm
      ∧ (parent_second_critical.parent.loc = .critical →
          parent_second_critical.shm.count < (MAX_PATIENTS : Int)
          ∧ ∃ s1, step MAX_PATIENTS .parent parent_second_critical = some s1
            ∧ s1.parent.loc = .unlock true
            ∧ s1.parent.log = parent_second_critical.parent.log ++ [.added (new_patient parent_second_critical.parent.i)]
            ∧ s1.shm.count = parent_second_critical.shm.count + 1
            ∧ readPatient s1.shm.patients parent_second_critical.shm.count = some (new_patient parent_second_critical.parent.i)
            ∧ contents s1.shm = contents parent_second_critical.shm ++ [new_patient parent_second_critical.parent.i])
      ∧ (∃ rest s2, run_schedule MAX_PATIENTS rest parent_second_critical = some s2 ∧ s2.finished
          ∧ s2.parent.log = [.added { id := 0, name := "Patient 0" },
              .added { id := 1, name := "Patient 1" },
              .added { id := 2, name := "Patient 2" },
              .added { id := 3, name := "Patient 3" },
              .added { id := 4, name := "Patient 4" }])) :=
  ⟨by decide, by decide, by decide,
    C7_producer_output (zero_mem 10) (by decide) consumer_first consumer_first_final
      (by decide),
    by decide, by decide,
    C7_producer_output (zero_mem 10) (by decide)
      [.parent, .parent, .parent, .parent, .child, .child, .child, .child, .parent]
      parent_second_critical (by decide)⟩

/-- C8 (mutual exclusion).  For every capacity, every initial content of the segment and
every interleaving of the steps `sem_lock(sem_mutex)`, critical section,
`sem_unlock(sem_mutex)`, `sem_unlock(sem_patient)` of the two processes, with the mutex
semaphore initialised to 1, in every state reached:
(1) the two processes are never both between `sem_lock` and `sem_unlock`, and the semaphore
is 1 minus the number of holders;
(2) a step of a process that does not hold the mutex leaves the shared memory unchanged and
does not depend on it, so every read or write of `count` or `patients` is made by a holder;
(3) for each process the number of releases equals the number of iterations completed (plus
one between the release and the `i++` of the success branch), and the branches of the
releases are the outcomes of its critical sections, in order, the outcome of a critical
section not yet released being the branch of the next release;
(4) a process at `sem_lock` passes it exactly when nobody holds the mutex, and then holds it,
the semaphore being 0;
(5) a process that holds the mutex before its critical section runs it (the array having
`cap` slots) and is then before its `sem_unlock(sem_mutex)`, on the success branch or on the
full/empty branch according to the outcome, without a release;
(6) a process before its `sem_unlock(sem_mutex)`, on either branch, can take that step: the
semaphore goes from 0 to 1, exactly one release is recorded, on that branch, the memory is
unchanged and the process no longer holds the mutex;
(7) the signal step ends the iteration without touching the mutex;
(8) a step of one process leaves the other process unchanged;
(9) the run can be continued until both loops have ended, each process then having released
the mutex five times, once per iteration, and the mutex being free. -/
theorem C8_mutual_exclusion (cap : Nat) (mem0 : List Patient) (sched : List ActorId)
    (s : SystemState)
    (hrun : run_schedule cap sched (init_system cap mem0) = some s) :
    ((¬ (s.parent.holds = true ∧ s.child.holds = true) ∧ s.sem_mutex = 1 - s.holders
        ∧ 0 ≤ s.sem_mutex)
      ∧ (∀ a s1, step cap a s = some s1 → (s.actor a).holds = false →
          s1.shm = s.shm
          ∧ ∀ shm2, step cap a { s with shm := shm2 } = some { s1 with shm := shm2 })
      ∧ (∀ a, ((s.actor a).unlocked.length : Int) = (s.actor a).i + (s.actor a).loc.past_unlock
          ∧ (s.actor a).log.map Event.ok = (s.actor a).unlocked ++ (s.actor a).loc.pending
          ∧ ((s.actor a).loc = .done → (s.actor a).unlocked.length = 5))
      ∧ (∀ a, (s.actor a).loc = .lock →
          ((step cap a s).isSome = true ↔ s.holders = 0)
          ∧ ∀ s1, step cap a s = some s1 →
              (s1.actor a).holds = true ∧ s1.sem_mutex = 0
              ∧ (s1.actor a).unlocked = (s.actor a).unlocked)
      ∧ (∀ a, (s.actor a).loc = .critical → mem0.length = cap →
          ∃ s1 ev, step cap a s = some s1 ∧ (s1.actor a).loc = .unlock ev.ok
            ∧ (s1.actor a).log = (s.actor a).log ++ [ev]
            ∧ s1.sem_mutex = s.sem_mutex ∧ (s1.actor a).unlocked = (s.actor a).unlocked
            ∧ (s1.actor a).i = (s.actor a).i)
      ∧ (∀ a ok, (s.actor a).loc = .unlock ok →
          ∃ s1, step cap a s = some s1 ∧ s.sem_mutex = 0 ∧ s1.sem_mutex = 1
            ∧ (s1.actor a).unlocked = (s.actor a).unlocked ++ [ok]
            ∧ (s1.actor a).holds = false ∧ s1.shm = s.shm
            ∧ (ok = true → (s1.actor a).loc = .signal ∧ (s1.actor a).i = (s.actor a).i)
            ∧ (ok = false → (s1.actor a).i = (s.actor a).i + 1))
      ∧ (∀ a, (s.actor a).loc = .signal →
          ∃ s1, step cap a s = some s1 ∧ s1.sem_mutex = s.sem_mutex
            ∧ s1.sem_patient = s.sem_patient + 1
            ∧ (s1.actor a).unlocked = (s.actor a).unlocked
            ∧ (s1.actor a).i = (s.actor a).i + 1 ∧ s1.shm = s.shm)
      ∧ (∀ a b s1, step cap a s = some s1 → b ≠ a → s1.actor b = s.actor b)
      ∧ (mem0.length = cap →
          ∃ rest s2, run_schedule cap rest s = some s2 ∧ s2.finished
            ∧ s2.parent.unlocked.length = 5 ∧ s2.child.unlocked.length = 5
            ∧ s2.sem_mutex = 1)) := by
  obtain ⟨hp, hc, hm, _⟩ := reachable_inv cap mem0 sched s hrun
  have hwf : mem0.length = cap → WellFormed cap s.shm := fun hlen =>
    run_schedule_wellFormed cap sched _ s hrun (hlen ▸ wellFormed_init mem0)
  refine ⟨⟨?_, hm.1, hm.2⟩, fun a s1 hstep hfree => step_no_access cap a s s1 hstep hfree, ?_,
    fun a hloc => acquire_step cap a s hm hloc,
    fun a hloc hlen => critical_step cap a s (hwf hlen) hloc,
    fun a ok hloc => release_step cap a s hm ok hloc,
    fun a hloc => signal_step cap a s hloc,
    fun a b s1 hstep hne => step_other cap a b s s1 hstep hne, ?_⟩
  · rintro ⟨h1, h2⟩
    have hval := hm.1
    simp only [SystemState.holders, h1, h2, if_true] at hval
    have := hm.2
    omega
  · intro a
    have hx : LoopInv (s.actor a) := by cases a <;> assumption
    obtain ⟨_, hd, _, _, hun, hok⟩ := hx
    refine ⟨hun, hok, fun hdone => ?_⟩
    have := hd hdone
    rw [hdone] at hun
    simp only [Loc.past_unlock] at hun
    omega
  · intro hlen
    obtain ⟨rest, s2, hrun2, hfin2⟩ := completion cap _ s (Nat.le_refl _) hp hc hm (hwf hlen)
    obtain ⟨hp2, hc2, hm2, _⟩ := run_schedule_inv cap rest s s2 hrun2 hp hc hm
    obtain ⟨h1, h2, h3⟩ := finished_releases s2 hp2 hc2 hm2 hfin2
    exact ⟨rest, s2, hrun2, hfin2, h1, h2, h3⟩

/-- Witness for C8, at three states of the program's run on a fresh segment.  In
`child_holding` the parent has released the mutex once and is about to signal (a step of a
process outside the mutex), and the child holds the mutex before its critical section.  In
`child_found_empty` the child is about to release the mutex on the empty branch and the
parent waits at `sem_lock`.  In `alternating_final` both loops have ended after five
releases each. -/
theorem C8_mutual_exclusion_witness :
    (zero_mem 10).length = 10
    ∧ run_schedule 10 [.parent, .parent, .parent, .child] (init_system 10 (zero_mem 10))
        = some child_holding
    ∧
    ((¬ (child_holding.parent.holds = true ∧ child_holding.child.holds = true) ∧ child_holding.sem_mutex = 1 - child_holding.holders
        ∧ 0 ≤ child_holding.sem_mutex)
      ∧ (∀ a s1, step 10 a child_holding = some s1 → (child_holding.actor a).holds = false →
          s1.shm = child_holding.shm
          ∧ ∀ shm2, step 10 a { child_holding with shm := shm2 } = some { s1 with shm := shm2 })
      ∧ (∀ a, ((child_holding.actor a).unlocked.length : Int) = (child_holding.actor a).i + (child_holding.actor a).loc.past_unlock
          ∧ (child_holding.actor a).log.map Event.ok = (child_holding.actor a).unlocked ++ (child_holding.actor a).loc.pending
          ∧ ((child_holding.actor a).loc = .done → (child_holding.actor a).unlocked.length = 5))
      ∧ (∀ a, (child_holding.actor a).loc = .lock →
          ((step 10 a child_holding).isSome = true ↔ child_holding.holders = 0)
          ∧ ∀ s1, step 10 a child_holding = some s1 →
              (s1.actor a).holds = true ∧ s1.sem_mutex = 0
              ∧ (s1.actor a).unlocked = (child_holding.actor a).unlocked)
      ∧ (∀ a, (child_holding.actor a).loc = .critical → (zero_mem 10).length = 10 →
          ∃ s1 ev, step 10 a child_holding = some s1 ∧ (s1.actor a).loc = .unlock ev.ok
            ∧ (s1.actor a).log = (child_holding.actor a).log ++ [ev]
            ∧ s1.sem_mutex = child_holding.sem_mutex ∧ (s1.actor a).unlocked = (child_holding.actor a).unlocked
            ∧ (s1.actor a).i = (child_holding.actor a).i)
      ∧ (∀ a ok, (child_holding.actor a).loc = .unlock ok →
          ∃ s1, step 10 a child_holding = some s1 ∧ child_holding.sem_mutex = 0 ∧ s1.sem_mutex = 1
            ∧ (s1.actor a).unlocked = (child_holding.actor a).unlocked ++ [ok]
            ∧ (s1.actor a).holds = false ∧ s1.shm = child_holding.shm
            ∧ (ok = true → (s1.actor a).loc = .signal ∧ (s1.actor a).i = (child_holding.actor a).i)
            ∧ (ok = false → (s1.actor a).i = (child_holding.actor a).i + 1))
      ∧ (∀ a, (child_holding.actor a).loc = .signal →
          ∃ s1, step 10 a child_holding = some s1 ∧ s1.sem_mutex = child_holding.sem_mutex
            ∧ s1.sem_patient = child_holding.sem_patient + 1
            ∧ (s1.actor a).unlocked = (child_holding.actor a).unlocked
            ∧ (s1.actor a).i = (child_holding.actor a).i + 1 ∧ s1.shm = child_holding.shm)
      ∧ (∀ a b s1, step 10 a child_holding = some s1 → b ≠ a → s1.actor b = child_holding.actor b)
      ∧ ((zero_mem 10).length = 10 →
          ∃ rest s2, run_schedule 10 rest child_holding = some s2 ∧ s2.finished
            ∧ s2.parent.unlocked.length = 5 ∧ s2.child.unlocked.length = 5
            ∧ s2.sem_mutex = 1))
    ∧ run_schedule 10 [.child, .child] (init_system 10 (zero_mem 10))
        = some child_found_empty
    ∧ step 10 .parent child_found_empty = none
    ∧
    ((¬ (child_found_empty.parent.holds = true ∧ child_found_empty.child.holds = true) ∧ child_found_empty.sem_mutex = 1 - child_found_empty.holders
        ∧ 0 ≤ child_found_empty.sem_mutex)
      ∧ (∀ a s1, step 10 a child_found_empty = some s1 → (child_found_empty.actor a).holds = false →
          s1.shm = child_found_empty.shm
          ∧ ∀ shm2, step 10 a { child_found_empty with shm := shm2 } = some { s1 with shm := shm2 })
      ∧ (∀ a, ((child_found_empty.actor a).unlocked.length : Int) = (child_found_empty.actor a).i + (child_found_empty.actor a).loc.past_unlock
          ∧ (child_found_empty.actor a).log.map Event.ok = (child_found_empty.actor a).unlocked ++ (child_found_empty.actor a).loc.pending
          ∧ ((child_found_empty.actor a).loc = .done → (child_found_empty.actor a).unlocked.length = 5))
      ∧ (∀ a, (child_found_empty.actor a).loc = .lock →
          ((step 10 a child_found_empty).isSome = true ↔ child_found_empty.holders = 0)
          ∧ ∀ s1, step 10 a child_found_empty = some s1 →
              (s1.actor a).holds = true ∧ s1.sem_mutex = 0
              ∧ (s1.actor a).unlocked = (child_found_empty.actor a).unlocked)
      ∧ (∀ a, (child_found_empty.actor a).loc = .critical → (zero_mem 10).length = 10 →
          ∃ s1 ev, step 10 a child_found_empty = some s1 ∧ (s1.actor a).loc = .unlock ev.ok
            ∧ (s1.actor a).log = (child_found_empty.actor a).log ++ [ev]
            ∧ s1.sem_mutex = child_found_empty.sem_mutex ∧ (s1.actor a).unlocked = (child_found_empty.actor a).unlocked
            ∧ (s1.actor a).i = (child_found_empty.actor a).i)
      ∧ (∀ a ok, (child_found_empty.actor a).loc = .unlock ok →
          ∃ s1, step 10 a child_found_empty = some s1 ∧ child_found_empty.sem_mutex = 0 ∧ s1.sem_mutex = 1
            ∧ (s1.actor a).unlocked = (child_found_empty.actor a).unlocked ++ [ok]
            ∧ (s1.actor a).holds = false ∧ s1.shm = child_found_empty.shm
            ∧ (ok = true → (s1.actor a).loc = .signal ∧ (s1.actor a).i = (child_found_empty.actor a).i)
            ∧ (ok = false → (s1.actor a).i = (child_found_empty.actor a).i + 1))
      ∧ (∀ a, (child_found_empty.actor a).loc = .signal →
          ∃ s1, step 10 a child_found_empty = some s1 ∧ s1.sem_mutex = child_found_empty.sem_mutex
            ∧ s1.sem_patient = child_found_empty.sem_patient + 1
            ∧ (s1.actor a).unlocked = (child_found_empty.actor a).unlocked
            ∧ (s1.actor a).i = (child_found_empty.actor a).i + 1 ∧ s1.shm = child_found_empty.shm)
      ∧ (∀ a b s1, step 10 a child_found_empty = some s1 → b ≠ a → s1.actor b = child_found_empty.actor b)
      ∧ ((zero_mem 10).length = 10 →
          ∃ rest s2, run_schedule 10 rest child_found_empty = some s2 ∧ s2.finished
            ∧ s2.parent.unlocked.length = 5 ∧ s2.child.unlocked.length = 5
            ∧ s2.sem_mutex = 1))
    ∧ run_schedule 10 alternating (init_system 10 (zero_mem 10)) = some alternating_final
    ∧ alternating_final.finished
    ∧
    ((¬ (alternating_final.parent.holds = true ∧ alternating_final.child.holds = true) ∧ alternating_final.sem_mutex = 1 - alternating_final.holders
        ∧ 0 ≤ alternating_final.sem_mutex)
      ∧ (∀ a s1, step 10 a alternating_final = some s1 → (alternating_final.actor a).holds = false →
          s1.shm = alternating_final.shm
          ∧ ∀ shm2, step 10 a { alternating_final with shm := shm2 } = some { s1 with shm := shm2 })
      ∧ (∀ a, ((alternating_final.actor a).unlocked.length : Int) = (alternating_final.actor a).i + (alternating_final.actor a).loc.past_unlock
          ∧ (alternating_final.actor a).log.map Event.ok = (alternating_final.actor a).unlocked ++ (alternating_final.actor a).loc.pending
          ∧ ((alternating_final.actor a).loc = .done → (alternating_final.actor a).unlocked.length = 5))
      ∧ (∀ a, (alternating_final.actor a).loc = .lock →
          ((step 10 a alternating_final).isSome = true ↔ alternating_final.holders = 0)
          ∧ ∀ s1, step 10 a alternating_final = some s1 →
              (s1.actor a).holds = true ∧ s1.sem_mutex = 0
              ∧ (s1.actor a).unlocked = (alternating_final.actor a).unlocked)
      ∧ (∀ a, (alternating_final.actor a).loc = .critical → (zero_mem 10).length = 10 →
          ∃ s1 ev, step 10 a alternating_final = some s1 ∧ (s1.actor a).loc = .unlock ev.ok
            ∧ (s1.actor a).log = (alternating_final.actor a).log ++ [ev]
            ∧ s1.sem_mutex = alternating_final.sem_mutex ∧ (s1.actor a).unlocked = (alternating_final.actor a).unlocked
            ∧ (s1.actor a).i = (alternating_final.actor a).i)
      ∧ (∀ a ok, (alternating_final.actor a).loc = .unlock ok →
          ∃ s1, step 10 a alternating_final = some s1 ∧ alternating_final.sem_mutex = 0 ∧ s1.sem_mutex = 1
            ∧ (s1.actor a).unlocked = (alternating_final.actor a).unlocked ++ [ok]
            ∧ (s1.actor a).holds = false ∧ s1.shm = alternating_final.shm
            ∧ (ok = true → (s1.actor a).loc = .signal ∧ (s1.actor a).i = (alternating_final.actor a).i)
            ∧ (ok = false → (s1.actor a).i = (alternating_final.actor a).i + 1))
      ∧ (∀ a, (alternating_final.actor a).loc = .signal →
          ∃ s1, step 10 a alternating_final = some s1 ∧ s1.sem_mutex = alternating_final.sem_mutex
            ∧ s1.sem_patient = alternating_final.sem_patient + 1
            ∧ (s1.actor a).unlocked = (alternating_final.actor a).unlocked
            ∧ (s1.actor a).i = (alternating_final.actor a).i + 1 ∧ s1.shm = alternating_final.shm)
      ∧ (∀ a b s1, step 10 a alternating_final = some s1 → b ≠ a → s1.actor b = alternating_final.actor b)
      ∧ ((zero_mem 10).length = 10 →
          ∃ rest s2, run_schedule 10 rest alternating_final = some s2 ∧ s2.finished
            ∧ s2.parent.unlocked.length = 5 ∧ s2.child.unlocked.length = 5
            ∧ s2.sem_mutex = 1)) :=
  ⟨by decide, by decide,
    C8_mutual_exclusion 10 (zero_mem 10) [.parent, .parent, .parent, .child] child_holding
      (by decide),
    by decide, by decide,
    C8_mutual_exclusion 10 (zero_mem 10) [.child, .child] child_found_empty (by decide),
    by decide, by decide,
    C8_mutual_exclusion 10 (zero_mem 10) alternating alternating_final (by decide)⟩

/-- C9: the patient semaphore leaves `[0, MAX_PATIENTS]`.  It starts at `MAX_PATIENTS` (line
78) and the parent's first iteration, which always succeeds, increments it (line 123): after
that iteration it is 11. -/
theorem C9_sem_patient_exceeds_capacity :
    (init_system MAX_PATIENTS (zero_mem 10)).sem_patient = 10
    ∧ run_schedule MAX_PATIENTS first_iteration (init_system MAX_PATIENTS (zero_mem 10))
        = some first_iteration_final
    ∧ first_iteration_final.sem_patient = 11
    ∧ ¬ (0 ≤ first_iteration_final.sem_patient
        ∧ first_iteration_final.sem_patient ≤ (MAX_PATIENTS : Int)) := by
  decide

end Pharmacy
